import Mathlib

/-!
Shallow embedding of the csvanalyzer CSV dialect sniffer and
type-inference engine, together with proofs checking its specification.

Conventions of the embedding:
* Rust strings are modelled as List Char; byte buffers as List Nat
  (each entry < 256 in practice).
* Mutation becomes explicit state passing; early returns become
  Except / Option values.
* Names follow the Rust source (src/detection/..., src/validation.rs,
  src/analyzer.rs) in camelCase.
-/

namespace CsvAnalyzer

/-- The five data-type codes of types.rs. -/
inductive DataType where
  | string
  | integer
  | float
  | boolean
  | dateTime
deriving DecidableEq, Repr

/-- The closed CSV error taxonomy of types.rs (CsvErrorType). -/
inductive CsvErrorType where
  | process
  | database
  | sample
  | binary
  | variousFieldsCount
  | tooMuchColumns
  | columnLong
  | valueLong
  | duplicateField
  | emailNotFound
deriving DecidableEq, Repr

/-! ## Shared string helpers -/

/-- Rust char::is_whitespace restricted to the ASCII whitespace actually
occurring in CSV samples (space, tab, newline, carriage return). -/
def isWs (c : Char) : Bool :=
  c = ' ' || c = '\t' || c = '\n' || c = '\x0D'

/-- Rust str::trim on a character list. -/
def trimList (s : List Char) : List Char :=
  ((s.dropWhile isWs).reverse.dropWhile isWs).reverse

/-- Lowercase a character list (ASCII lowering, as used on the
candidate strings appearing in the analyzer). -/
def lowerList (s : List Char) : List Char :=
  s.map Char.toLower

/-- count_char of quote.rs: occurrences of a character in a line. -/
def countChar (c : Char) (s : List Char) : Nat :=
  (s.filter (fun ch => ch = c)).length

/-! ## Quote detection (detection/quote.rs) -/

/-- TEXT_SEPS of types.rs. -/
def TEXT_SEPS : List Char := ['"', '\'']

/-- TEXT_SEP_PERCENT of types.rs. -/
def TEXT_SEP_PERCENT : Nat := 50

/-- One line of the detect_quote_char statistics loop.  Each entry is
(candidate, total_count, lines_with_pairs).  An odd per-line count
resets that candidate's tallies and (mirroring the break in the Rust
loop) skips the remaining candidates for this line. -/
def quoteLineStep : List (Char × Nat × Nat) → List Char → List (Char × Nat × Nat)
  | [], _ => []
  | (c, tot, lns) :: rest, line =>
      let k := countChar c line
      if k % 2 ≠ 0 then
        (c, 0, 0) :: rest
      else
        (c, tot + k, if k > 0 then lns + 1 else lns) :: quoteLineStep rest line

/-- Selection loop of detect_quote_char: the running best candidate,
replaced only on a strictly larger positive total (so the earliest
candidate wins ties, as with the best_idx loop of the Rust code). -/
def quoteBest : List (Char × Nat × Nat) → Option (Char × Nat × Nat) → Option (Char × Nat × Nat)
  | [], best => best
  | st :: rest, best =>
      let better := st.2.1 > 0 &&
        (match best with
         | none => true
         | some b => st.2.1 > b.2.1)
      quoteBest rest (if better then some st else best)

/-- detect_quote_char of quote.rs. -/
def detectQuoteChar (lines : List (List Char)) : Option Char :=
  if lines = [] then none
  else
    let init : List (Char × Nat × Nat) := TEXT_SEPS.map (fun c => (c, 0, 0))
    let stats := lines.foldl quoteLineStep init
    match quoteBest stats none with
    | none => none
    | some st =>
        if (st.2.2 * 100) / lines.length ≥ TEXT_SEP_PERCENT then
          some st.1
        else none

/-! ## Email validation (detection/email.rs) -/

/-- Split a list at the first occurrence of a character, dropping it. -/
def splitAtFirst (c : Char) : List Char → Option (List Char × List Char)
  | [] => none
  | x :: xs =>
      if x = c then some ([], xs)
      else (splitAtFirst c xs).map (fun p => (x :: p.1, p.2))

/-- Split a list at the last occurrence of a character, dropping it. -/
def splitAtLast (c : Char) (s : List Char) : Option (List Char × List Char) :=
  match splitAtFirst c s.reverse with
  | none => none
  | some (ra, rd) => some (rd.reverse, ra.reverse)

/-- Character class of the local part in EMAIL_REGEX. -/
def isLocalChar (c : Char) : Bool :=
  c.isAlpha || c.isDigit || c = '.' || c = '_' || c = '%' || c = '+' || c = '-'

/-- Character class of the domain body in EMAIL_REGEX. -/
def isDomainChar (c : Char) : Bool :=
  c.isAlpha || c.isDigit || c = '.' || c = '-'

/-- The anchored EMAIL_REGEX of email.rs.  Since the local-part class
and the domain classes both exclude the at sign, an anchored match
forces the local part to end at the FIRST at sign; and since the final
letters-only group excludes the dot, the mandatory dot of the match is
the LAST dot after the at sign.  This executable split is therefore
exactly the backtracking-regex match. -/
def emailRegexMatch (s : List Char) : Bool :=
  match splitAtFirst '@' s with
  | none => false
  | some (loc, rest) =>
      (decide (loc ≠ []) && loc.all isLocalChar) &&
      match splitAtLast '.' rest with
      | none => false
      | some (d, a) =>
          decide (d ≠ []) && d.all isDomainChar &&
          decide (a.length ≥ 2) && a.all Char.isAlpha

/-- is_valid_email of email.rs: trim, structural checks on the first
at sign and the domain dot, then the regex. -/
def isValidEmail (email0 : List Char) : Bool :=
  let email := trimList email0
  if email = [] then false
  else
    match splitAtFirst '@' email with
    | none => false
    | some (loc, dom) =>
        if loc = [] then false
        else if dom = [] then false
        else if !dom.contains '.' then false
        else emailRegexMatch email

/-! ## Email column location (detection/email.rs) -/

/-- One row of the per-column valid-email tally: a field is counted
when it is non-empty and a valid email; indices beyond the tally
vector are ignored, fields beyond the row leave the tally unchanged. -/
def bumpCounts : List Nat → List (List Char) → List Nat
  | [], _ => []
  | acc, [] => acc
  | a :: acc, v :: row =>
      (if decide (v ≠ []) && isValidEmail v then a + 1 else a) :: bumpCounts acc row

/-- Per-column valid-email tallies over all rows (n columns). -/
def emailCounts (rows : List (List (List Char))) (n : Nat) : List Nat :=
  rows.foldl bumpCounts (List.replicate n 0)

/-- Selection loop of detect_email_column: best_col / best_count,
updated only on a strictly larger count, starting from count 0. -/
def pickBestAux : List Nat → Nat → Option Nat → Nat → Option Nat
  | [], _, bc, _ => bc
  | c :: rest, i, bc, bcount =>
      if c > bcount then pickBestAux rest (i + 1) (some i) c
      else pickBestAux rest (i + 1) bc bcount

/-- First header whose lowercase form is one of the targets. -/
def headerFindAux : List (List Char) → Nat → List (List Char) → Option Nat
  | [], _, _ => none
  | h :: rest, i, targets =>
      if lowerList h ∈ targets then some i
      else headerFindAux rest (i + 1) targets

/-- detect_email_column of email.rs. -/
def detectEmailColumn (rows : List (List (List Char)))
    (header : Option (List (List Char))) (skipHeader : Bool) : Option Nat :=
  match rows with
  | [] => none
  | r0 :: _ =>
      if r0.length = 0 then none
      else
        let headerHit :=
          if skipHeader then
            match header with
            | some hs => headerFindAux hs 0 ["email".toList, "e-mail".toList]
            | none => none
          else none
        match headerHit with
        | some i => some i
        | none =>
            let counts := emailCounts rows r0.length
            match pickBestAux counts 0 none 0 with
            | some i => some i
            | none =>
                if skipHeader then
                  match header with
                  | some hs => headerFindAux hs 0 ["e-mail".toList]
                  | none => none
                else none

/-- The ok_or step of analyze_internal turning an absent email column
into the EmailNotFound error. -/
def analyzerEmailStep (o : Option Nat) : Except CsvErrorType Nat :=
  match o with
  | some i => Except.ok i
  | none => Except.error CsvErrorType.emailNotFound

/-- Maximum of a tally list. -/
def listMax (cs : List Nat) : Nat := cs.foldr max 0

/-- Modelled from the spec wording of the email-column rule, for
comparison with detectEmailColumn: the column with the highest
positive tally (first such column), none when every tally is zero. -/
def emailColumnSpec (counts : List Nat) : Option Nat :=
  if listMax counts = 0 then none
  else some (counts.findIdx (fun c => c = listMax counts))

/-! ## Column-count validation (validation.rs, detection/delimiter.rs) -/

/-- Constants of types.rs used by validation. -/
def COLUMN_COUNT_PERCENT : Nat := 90

def MAX_BUCKET : Nat := 4

def MAX_COLUMNS : Nat := 200

/-- count_delimiters of delimiter.rs: occurrences of the delimiter
outside text-separator quoting.  The separator toggle is applied
before the count test of the same character. -/
def countDelimAux (delim tsep : Char) : Bool → Nat → List Char → Nat
  | _, n, [] => n
  | inside, n, c :: rest =>
      let inside' := if tsep ≠ '\x00' ∧ c = tsep then !inside else inside
      let n' := if c = delim ∧ inside' = false then n + 1 else n
      countDelimAux delim tsep inside' n' rest

def countDelimiters (delim : Char) (line : List Char) (tsep : Char) : Nat :=
  countDelimAux delim tsep false 0 line

/-- ValidationResult of validation.rs. -/
structure ValidationResult where
  columnsCount : Nat
  errorRow : Nat
deriving DecidableEq, Repr

/-- The entry-or-insert update of the column-count bucket (HashMap
entry().or_insert(0) += 1, modelled as an association list in
first-appearance order — the order is irrelevant to the outcome, the
90 percent winner being unique). -/
def bumpBucket : List (Nat × Nat) → Nat → List (Nat × Nat)
  | [], k => [(k, 1)]
  | (k0, n) :: rest, k =>
      if k0 = k then (k0, n + 1) :: rest else (k0, n) :: bumpBucket rest k

/-- The bucketing loop of validate_columns_count, aborting as soon as
the bucket holds more than MAX_BUCKET distinct counts. -/
def buildBucket : List (Nat × Nat) → List Nat → Except CsvErrorType (List (Nat × Nat))
  | bucket, [] => Except.ok bucket
  | bucket, k :: rest =>
      let b' := bumpBucket bucket k
      if b'.length > MAX_BUCKET then Except.error CsvErrorType.variousFieldsCount
      else buildBucket b' rest

/-- The winner scan of validate_columns_count: first bucket entry
reaching COLUMN_COUNT_PERCENT of the lines (checking MAX_COLUMNS),
else the variation error. -/
def findWinner (total : Nat) : List (Nat × Nat) → Except CsvErrorType ValidationResult
  | [] => Except.error CsvErrorType.variousFieldsCount
  | (k, occ) :: rest =>
      if (occ * 100) / total ≥ COLUMN_COUNT_PERCENT then
        if k > MAX_COLUMNS then Except.error CsvErrorType.tooMuchColumns
        else Except.ok ⟨k, 0⟩
      else findWinner total rest

/-- validate_columns_count of validation.rs. -/
def validateColumnsCount (lines : List (List Char)) (delimiter : Char) (textSep : Char) :
    Except CsvErrorType ValidationResult :=
  if lines = [] then Except.error CsvErrorType.sample
  else if delimiter = '\x00' then Except.ok ⟨1, 0⟩
  else
    let counts := lines.map (fun line => countDelimiters delimiter line textSep + 1)
    match buildBucket [] counts with
    | Except.error e => Except.error e
    | Except.ok bucket => findWinner lines.length bucket

/-! ## Binary guard (validation.rs is_binary_data, analyzer.rs) -/

/-- The first line of the byte sample (up to the first newline byte,
or the whole sample), capped at 1024 bytes. -/
def firstLineCap (data : List Nat) : List Nat :=
  data.take (min (data.takeWhile (fun b => b ≠ 10)).length 1024)

/-- BOM stripping of is_binary_data (UTF-8 BOM, else UTF-16 BOMs). -/
def stripBomBytes (sample : List Nat) : List Nat :=
  if sample.take 3 = [0xEF, 0xBB, 0xBF] then sample.drop 3
  else if sample.take 2 = [0xFF, 0xFE] ∨ sample.take 2 = [0xFE, 0xFF] then sample.drop 2
  else sample

/-- The unprintable-byte predicate of is_binary_data. -/
def isUnprintable (b : Nat) : Bool :=
  b < 0x20 || b = 0xFF || (0x7F ≤ b && b ≤ 0xA0)

/-- is_binary_data of validation.rs. -/
def isBinaryData (data : List Nat) : Bool :=
  if data = [] then false
  else
    let sample := stripBomBytes (firstLineCap data)
    if sample = [] then false
    else ((sample.filter isUnprintable).length * 100) / sample.length ≥ 20

/-- The first steps of analyze_internal after sampling: the binary
gate, then charset detection, then decoding.  The detector and decoder
are parameters: the ordering claim is exactly that the result does not
depend on them once the binary gate fires. -/
def analyzePrefix (detect : List Nat → List Char)
    (decode : List Nat → List Char → Except (List Char) (List Char)) (sample : List Nat) :
    Except CsvErrorType (List Char) :=
  if isBinaryData sample then Except.error CsvErrorType.binary
  else
    match decode sample (detect sample) with
    | Except.error _ => Except.error CsvErrorType.process
    | Except.ok text => Except.ok text

/-- First-match lookup in a bucket (0 when absent). -/
def lookupB : List (Nat × Nat) → Nat → Nat
  | [], _ => 0
  | (k0, n) :: rest, k => if k0 = k then n else lookupB rest k

/-- Sum of the occurrence counts of a bucket. -/
def sumB (b : List (Nat × Nat)) : Nat := (b.map Prod.snd).sum

/-! ## Email-anchored delimiter detection (detection/delimiter.rs) -/

/-- FIELD_DELIMS of types.rs: candidate delimiters in priority order
(vertical tab, comma, semicolon, pipe, space, tab). -/
def FIELD_DELIMS : List Char := ['\x0B', ',', ';', '|', ' ', '\t']

/-- is_field_delimiter of delimiter.rs. -/
def isFieldDelimiter (c : Char) : Bool := decide (c ∈ FIELD_DELIMS)

/-- get_priority_delimiter of delimiter.rs: the first FIELD_DELIMS
entry equal to either argument (falling back to the first argument). -/
def getPriorityDelimiter (c1 c2 : Char) : Char :=
  go FIELD_DELIMS
where go : List Char → Char
  | [] => c1
  | d :: rest => if d = c1 ∨ d = c2 then d else go rest

/-- EMAIL_LOCAL_CHARS of types.rs, tested after ASCII lowering. -/
def isEmailLocalChar (c : Char) : Bool :=
  decide (c.toLower ∈ "abcdefghijklmnopqrstuvwxyz0123456789._-+".toList)

/-- EMAIL_DOMAIN_CHARS of types.rs, tested after ASCII lowering. -/
def isEmailDomainChar (c : Char) : Bool :=
  decide (c.toLower ∈ "abcdefghijklmnopqrstuvwxyz0123456789.-".toList)

/-- The delimiter-selection block of get_email_delimiter: both sides
agreeing pick that delimiter, disagreeing sides resolve by priority,
one-sided results are taken as is. -/
def chooseDelim : Option Char → Option Char → Option Char
  | some l, some r => if l = r then some l else some (getPriorityDelimiter l r)
  | none, some r => some r
  | some l, none => some l
  | none, none => none

/-- The neighbour inspection of get_email_delimiter: the first
non-space character of the given side, when it is a known delimiter. -/
def sideDelim (side : List Char) : Option Char :=
  match side.dropWhile (fun c => c = ' ') with
  | [] => none
  | c :: _ => if isFieldDelimiter c then some c else none

/-- The decision of get_email_delimiter once the candidate local part
and domain are bounded: validate the lowercased candidate and combine
the delimiters found on both sides. -/
def emailDelimDecide (chars : List Char) (atPos : Nat)
    (localPart domain : List Char) : Option Char :=
  if isValidEmail (lowerList localPart ++ '@' :: lowerList domain) then
    chooseDelim
      (sideDelim (chars.take (atPos - localPart.length)).reverse)
      (sideDelim (chars.drop (atPos + domain.length + 1)))
  else none

/-- The body of get_email_delimiter at one at-sign position: expand
the local part to the left and the domain to the right through the
allowed character classes (the index scans of the Rust code compute
exactly these class-bounded take-whiles), then decide. -/
def emailDelimAt (chars : List Char) (atPos : Nat) : Option Char :=
  emailDelimDecide chars atPos
    ((chars.take atPos).reverse.takeWhile isEmailLocalChar).reverse
    ((chars.drop (atPos + 1)).takeWhile isEmailDomainChar)

/-- The at-sign scan of get_email_delimiter: the first at sign whose
bounded candidate validates and yields a delimiter decides. -/
def getEmailDelimAux (line : List Char) : Nat → List Char → Option Char
  | _, [] => none
  | pos, c :: rest =>
      if c = '@' then
        match emailDelimAt line pos with
        | some d => some d
        | none => getEmailDelimAux line (pos + 1) rest
      else getEmailDelimAux line (pos + 1) rest

/-- get_email_delimiter of delimiter.rs. -/
def getEmailDelimiter (line : List Char) : Option Char :=
  getEmailDelimAux line 0 line

/-! ## Field/column-name length validation (validation.rs, analyzer.rs) -/

/-- MAX_STRING_SIZE of types.rs. -/
def MAX_STRING_SIZE : Nat := 1000

/-- MAX_RETURN_LINES of types.rs. -/
def MAX_RETURN_LINES : Nat := 10

/-- UTF-8 encoded size of one character (str::len counts bytes). -/
def charUtf8Size (c : Char) : Nat :=
  if c.toNat < 0x80 then 1
  else if c.toNat < 0x800 then 2
  else if c.toNat < 0x10000 then 3
  else 4

/-- Rust str::len of a string: its UTF-8 byte count. -/
def utf8Len (s : List Char) : Nat := (s.map charUtf8Size).sum

/-- is_valid_string_size of validation.rs (s.len() is in bytes). -/
def isValidStringSize (s : List Char) : Bool := utf8Len s ≤ MAX_STRING_SIZE

/-- Cursor context carried by a failure (error type, row, column,
offending field). -/
structure ErrorCtx where
  err : CsvErrorType
  row : Nat
  col : Nat
  field : List Char
deriving DecidableEq, Repr

/-- The header-validation loop of analyze_internal: first oversized
header name aborts with ColumnLong at its 1-based column (current_row
still holds its initial value 0 at that stage). -/
def validateHeadersAux : List (List Char) → Nat → Except ErrorCtx Unit
  | [], _ => Except.ok ()
  | h :: rest, i =>
      if isValidStringSize h then validateHeadersAux rest (i + 1)
      else Except.error ⟨CsvErrorType.columnLong, 0, i + 1, h⟩

def validateHeaders (headers : List (List Char)) : Except ErrorCtx Unit :=
  validateHeadersAux headers 0

/-- The per-row value scan of the output loop of analyze_internal:
first oversized value aborts with ValueLong at its 1-based column. -/
def validateRowAux (rownum : Nat) : List (List Char) → Nat → Except ErrorCtx Unit
  | [], _ => Except.ok ()
  | v :: rest, col =>
      if isValidStringSize v then validateRowAux rownum rest (col + 1)
      else Except.error ⟨CsvErrorType.valueLong, rownum, col + 1, v⟩

/-- The output loop of analyze_internal: rows are validated and
collected until MAX_RETURN_LINES are gathered (rows beyond the cap are
not validated); reported row numbers are 1-based, plus one more when a
header was skipped. -/
def validateValuesAux (skip : Bool) :
    List (List (List Char)) → Nat → Nat → Except ErrorCtx (List (List (List Char)))
  | [], _, _ => Except.ok []
  | row :: rest, rowIdx, outCount =>
      if outCount ≥ MAX_RETURN_LINES then Except.ok []
      else
        match validateRowAux (if skip then rowIdx + 2 else rowIdx + 1) row 0 with
        | Except.error e => Except.error e
        | Except.ok _ =>
            match validateValuesAux skip rest (rowIdx + 1) (outCount + 1) with
            | Except.error e => Except.error e
            | Except.ok out => Except.ok (row :: out)

def validateValues (skip : Bool) (rows : List (List (List Char))) :
    Except ErrorCtx (List (List (List Char))) :=
  validateValuesAux skip rows 0 0

/-! ## Advisory metadata fetch (analyzer.rs get_contact_properties, db.rs) -/

/-- PoolInfo of db.rs. -/
structure PoolInfo where
  pool : Int
  ipRw : List Char
  dbVersion : Int

/-- ContactProperty of types.rs. -/
structure ContactProperty where
  name : List Char
  datatype : DataType

/-- The database collaborator of db.rs, abstracted to the outcomes of
its four fallible operations as observed by get_contact_properties. -/
structure DbConnection where
  connectGlobal : Except (List Char) Unit
  getPoolInfo : Except (List Char) PoolInfo
  connectUserPool : PoolInfo → Except (List Char) Unit
  getContactProps : Except (List Char) (List ContactProperty)

/-- get_contact_properties of analyzer.rs: every failure of the
advisory lookup degrades to an empty property list. -/
def getContactProperties (db : DbConnection) : Except CsvErrorType (List ContactProperty) :=
  match db.connectGlobal with
  | Except.error _ => Except.ok []
  | Except.ok _ =>
      match db.getPoolInfo with
      | Except.error _ => Except.ok []
      | Except.ok poolInfo =>
          match db.connectUserPool poolInfo with
          | Except.error _ => Except.ok []
          | Except.ok _ =>
              match db.getContactProps with
              | Except.ok props => Except.ok props
              | Except.error _ => Except.ok []

/-! ## Datetime format detection (detection/datetime.rs, types.rs) -/

/-- DATE_SEPS of datetime.rs. -/
def DATE_SEPS : List Char := ['/', '-', '.']

/-- TIME_SEPS of datetime.rs. -/
def TIME_SEPS : List Char := [':']

/-- DATE_PATTERNS of types.rs as (pattern, separator) pairs (the order
field is not consulted by format detection). -/
def DATE_PATTERNS : List (List Char × Char) :=
  [("yyyy-mm-dd".toList, '-'), ("dd-mm-yyyy".toList, '-'), ("dd/mm/yyyy".toList, '/'),
   ("dd.mm.yyyy".toList, '.'), ("yyyy.dd.mm".toList, '.'), ("yyyy.mm.dd".toList, '.'),
   ("yyyy/mm/dd".toList, '/'), ("mm/dd/yyyy".toList, '/'), ("mm.dd.yyyy".toList, '.'),
   ("mm-dd-yyyy".toList, '-')]

/-- TIME_PATTERNS of types.rs. -/
def TIME_PATTERNS : List (List Char × Char) :=
  [("hh:nn:ss am/pm".toList, ':'), ("hh:nn:ss".toList, ':'),
   ("hh:nn am/pm".toList, ':'), ("hh:nn".toList, ':')]

/-- DateTimePatterns of datetime.rs. -/
structure DateTimePatterns where
  datePatterns : List (List Char × Char)
  timePatterns : List (List Char × Char)
deriving DecidableEq, Repr

/-- DateTimePatterns::new: RFC3339 first, then the fixed tables. -/
def DateTimePatterns.new : DateTimePatterns :=
  ⟨("rfc3339".toList, '-') :: DATE_PATTERNS, TIME_PATTERNS⟩

/-- format_string of datetime.rs: first surviving date pattern,
joined with the first surviving time pattern when one remains. -/
def DateTimePatterns.formatString (p : DateTimePatterns) : Option (List Char) :=
  match p.datePatterns.head?, p.timePatterns.head? with
  | some d, some t => some (d.1 ++ ' ' :: t.1)
  | some d, none => some d.1
  | _, _ => none

/-- could_be_datetime of datetime.rs. -/
def couldBeDatetime (value : List Char) : Bool :=
  decide (value ≠ []) &&
    (value.any (fun c => decide (c ∈ DATE_SEPS)) ||
      value.any (fun c => decide (c ∈ TIME_SEPS))) &&
    value.any Char.isDigit

/-- Non-overlapping left-to-right substring replacement
(String::replace), fuelled: every step consumes at least one input
character while spending exactly one unit of fuel, so fuel equal to
the input length never runs out. -/
def replaceSubGo (pat sub : List Char) : Nat → List Char → List Char
  | _, [] => []
  | 0, s => s
  | fuel + 1, c :: rest =>
      if pat ≠ [] ∧ (c :: rest).take pat.length = pat then
        sub ++ replaceSubGo pat sub fuel ((c :: rest).drop pat.length)
      else c :: replaceSubGo pat sub fuel rest

/-- Non-overlapping left-to-right substring replacement
(String::replace). -/
def replaceSub (pat sub s : List Char) : List Char :=
  replaceSubGo pat sub s.length s

/-- Substring containment (str::contains with a literal pattern). -/
def containsSub (pat : List Char) : List Char → Bool
  | [] => decide (pat = [])
  | c :: rest => decide ((c :: rest).take pat.length = pat) || containsSub pat rest

/-- pattern_to_chrono of datetime.rs: token substitution, then every
date separator replaced by the detected one (the sequential
char-replacements of the Rust code amount to one map). -/
def patternToChrono (pattern : List Char) (sep : Char) : List Char :=
  (replaceSub "dd".toList "%d".toList
    (replaceSub "mm".toList "%m".toList
      (replaceSub "yyyy".toList "%Y".toList pattern))).map
    (fun c => if c = '-' ∨ c = '/' ∨ c = '.' then sep else c)

/-- time_pattern_to_chrono of datetime.rs. -/
def timePatternToChrono (pattern : List Char) : List Char :=
  let p := replaceSub "ss".toList "%S".toList
    (replaceSub "nn".toList "%M".toList
      (replaceSub "hh".toList "%H".toList pattern))
  if containsSub "am/pm".toList pattern then
    replaceSub "%H".toList "%I".toList (replaceSub " am/pm".toList " %p".toList p)
  else p

/-- Field collection of the chrono parse model. -/
structure ParsedDT where
  y : Option Nat := none
  m : Option Nat := none
  d : Option Nat := none
  hh : Option Nat := none
  nn : Option Nat := none
  ss : Option Nat := none
  pm : Option Bool := none
  twelveHour : Bool := false
deriving DecidableEq, Repr, Inhabited

/-- Greedy bounded digit scan of chrono (at least one digit, at most
maxd, value accumulated in base 10). -/
def parseDigitsMax (maxd : Nat) (s : List Char) : Option (Nat × List Char) :=
  let ds := (s.takeWhile Char.isDigit).take maxd
  if ds = [] then none
  else some (ds.foldl (fun a c => a * 10 + (c.toNat - 48)) 0, s.drop ds.length)

/-- Chrono format runner, modelled from chrono's documented parsing of
the numeric specifiers appearing in the converted patterns (%Y up to
four digits here, two-digit fields up to two, %p matching AM/PM case
insensitively, whitespace in the format consuming any whitespace run);
returns the collected fields and the unconsumed input. -/
def runFmtP : List Char → List Char → ParsedDT → Option (ParsedDT × List Char)
  | [], input, acc => some (acc, input)
  | '%' :: 'Y' :: fr, input, acc =>
      (parseDigitsMax 4 input).bind (fun p => runFmtP fr p.2 {acc with y := some p.1})
  | '%' :: 'm' :: fr, input, acc =>
      (parseDigitsMax 2 input).bind (fun p => runFmtP fr p.2 {acc with m := some p.1})
  | '%' :: 'd' :: fr, input, acc =>
      (parseDigitsMax 2 input).bind (fun p => runFmtP fr p.2 {acc with d := some p.1})
  | '%' :: 'H' :: fr, input, acc =>
      (parseDigitsMax 2 input).bind (fun p => runFmtP fr p.2 {acc with hh := some p.1})
  | '%' :: 'I' :: fr, input, acc =>
      (parseDigitsMax 2 input).bind
        (fun p => runFmtP fr p.2 {acc with hh := some p.1, twelveHour := true})
  | '%' :: 'M' :: fr, input, acc =>
      (parseDigitsMax 2 input).bind (fun p => runFmtP fr p.2 {acc with nn := some p.1})
  | '%' :: 'S' :: fr, input, acc =>
      (parseDigitsMax 2 input).bind (fun p => runFmtP fr p.2 {acc with ss := some p.1})
  | '%' :: 'p' :: fr, input, acc =>
      if lowerList (input.take 2) = "am".toList then
        runFmtP fr (input.drop 2) {acc with pm := some false}
      else if lowerList (input.take 2) = "pm".toList then
        runFmtP fr (input.drop 2) {acc with pm := some true}
      else none
  | c :: fr, input, acc =>
      if c = ' ' then runFmtP fr (input.dropWhile isWs) acc
      else
        match input with
        | i :: ir => if i = c then runFmtP fr ir acc else none
        | [] => none

/-- Gregorian leap year. -/
def isLeapYear (y : Nat) : Bool :=
  (y % 4 = 0 && decide (y % 100 ≠ 0)) || y % 400 = 0

def daysInMonth (y m : Nat) : Nat :=
  if m = 2 then (if isLeapYear y then 29 else 28)
  else if m = 4 ∨ m = 6 ∨ m = 9 ∨ m = 11 then 30
  else 31

/-- The collected fields form a valid calendar date. -/
def dateValid (p : ParsedDT) : Bool :=
  match p.y, p.m, p.d with
  | some y, some m, some d =>
      (1 ≤ m && m ≤ 12) && (1 ≤ d && d ≤ daysInMonth y m)
  | _, _, _ => false

/-- The collected fields form a valid time of day (hour and minute
required, as for NaiveTime; a twelve-hour field needs its AM/PM). -/
def timeValid (p : ParsedDT) : Bool :=
  (match p.nn with
   | some n => n ≤ 59
   | none => false) &&
  (match p.ss with
   | some s => s ≤ 59
   | none => true) &&
  (if p.twelveHour then
    (match p.hh, p.pm with
     | some h, some _ => 1 ≤ h && h ≤ 12
     | _, _ => false)
  else
    (match p.hh with
     | some h => h ≤ 23
     | none => false))

/-- Whitespace-separated tokens (str::split_whitespace), fuelled:
every step consumes at least one input character while spending one
unit of fuel, so fuel equal to the input length never runs out. -/
def splitWsGo : Nat → List Char → List (List Char)
  | _, [] => []
  | 0, _ => []
  | fuel + 1, c :: rest =>
      if isWs c then splitWsGo fuel rest
      else (c :: rest.takeWhile (fun x => !isWs x)) ::
        splitWsGo fuel (rest.dropWhile (fun x => !isWs x))

/-- Whitespace-separated tokens (str::split_whitespace). -/
def splitWs (s : List Char) : List (List Char) :=
  splitWsGo s.length s

/-- The first whitespace token of a value, or the value itself when
there is none (split_whitespace().next().unwrap_or(value)). -/
def firstToken (value : List Char) : List Char :=
  match (splitWs value).head? with
  | some t => t
  | none => value

/-- try_parse_date of datetime.rs: parse the date part (the first
whitespace token when a time separator exists) fully against the
converted pattern and check calendar validity. -/
def tryParseDate (value pattern : List Char) (sep : Char) (timeSep : Option Char) : Bool :=
  let datePart := if timeSep.isSome then firstToken value else value
  match runFmtP (patternToChrono pattern sep) datePart default with
  | some (p, rest) => decide (rest = []) && dateValid p
  | none => false

/-- try_parse_time of datetime.rs: parse the second whitespace token
fully against the converted time pattern. -/
def tryParseTime (value pattern : List Char) : Bool :=
  match (splitWs value).get? 1 with
  | none => false
  | some timePart =>
      if timePart = [] then false
      else
        match runFmtP (timePatternToChrono pattern) timePart default with
        | some (p, rest) => decide (rest = []) && timeValid p
        | none => false

/-- Offset suffix of an RFC3339 timestamp: Z/z or a signed hh:mm. -/
def rfc3339Offset (s : List Char) : Bool :=
  match s with
  | ['Z'] => true
  | ['z'] => true
  | sgn :: h1 :: h2 :: ':' :: m1 :: m2 :: [] =>
      (sgn = '+' ∨ sgn = '-') && (h1.isDigit && h2.isDigit) && (m1.isDigit && m2.isDigit)
  | _ => false

/-- is_rfc3339 of datetime.rs: at least 11 characters, T or t at index
10, and a full RFC3339 timestamp (date, time, optional fraction, and
an offset, as chrono parse_from_rfc3339 and the two fixed-Z format
alternatives jointly accept). -/
def isRfc3339 (value : List Char) : Bool :=
  if value.length < 11 then false
  else if decide (value.get? 10 ≠ some 'T') && decide (value.get? 10 ≠ some 't') then false
  else
    match runFmtP "%Y-%m-%d".toList (value.take 10) default with
    | some (pd, rest) =>
        decide (rest = []) && dateValid pd &&
        (match runFmtP "%H:%M:%S".toList (value.drop 11) default with
         | some (pt, rest2) =>
             timeValid pt &&
             (match rest2 with
              | '.' :: fr =>
                  let ds := fr.takeWhile Char.isDigit
                  decide (ds ≠ []) && rfc3339Offset (fr.drop ds.length)
              | other => rfc3339Offset other)
         | none => false)
    | none => false

/-- guess_datetime_format of datetime.rs, the pattern lists passed and
returned explicitly in place of mutation.  Returns whether the value
matched at least one remaining date pattern. -/
def guessDatetimeFormat (value0 : List Char) (pats : DateTimePatterns) :
    Bool × DateTimePatterns :=
  let value := trimList value0
  if value = [] then (!pats.datePatterns.isEmpty, pats)
  else
    match value.find? (fun c => decide (c ∈ DATE_SEPS)) with
    | none => (false, ⟨[], []⟩)
    | some dateSep =>
        let timeSep := value.find? (fun c => decide (c ∈ TIME_SEPS))
        let dp1 := pats.datePatterns.filter
          (fun q => q.2 = dateSep ∨ q.1 = "rfc3339".toList)
        if dp1.any (fun q => decide (q.1 = "rfc3339".toList)) ∧ isRfc3339 value then
          (true, ⟨dp1.filter (fun q => q.1 = "rfc3339".toList), []⟩)
        else
          let dp2 :=
            if dp1.any (fun q => decide (q.1 = "rfc3339".toList)) then
              dp1.filter (fun q => q.1 ≠ "rfc3339".toList)
            else dp1
          let valid := dp2.filter (fun q => tryParseDate value q.1 q.2 timeSep)
          let tps :=
            match timeSep with
            | some ts =>
                let tp1 := pats.timePatterns.filter (fun q => q.2 = ts)
                if tp1.isEmpty then tp1
                else tp1.filter (fun q => tryParseTime value q.1)
            | none => []
          (!valid.isEmpty, ⟨valid, tps⟩)

/-! ## Data-type detection (detection/datatype.rs) -/

/-- BooleanState of datatype.rs. -/
structure BooleanState where
  hadStringBool : Bool
deriving DecidableEq, Repr

/-- try_parse_boolean of datatype.rs: Some(true) for string-form
booleans, Some(false) for numeric-form ones. -/
def tryParseBooleanV (value : List Char) : Option Bool :=
  if lowerList value = "true".toList ∨ lowerList value = "false".toList then some true
  else if value = "0".toList ∨ value = "1".toList then some false
  else none

/-- is_string_value of datatype.rs. -/
def isStringValue (value : List Char) : Bool :=
  if lowerList value = "true".toList ∨ lowerList value = "false".toList then false
  else value.any (fun c =>
    decide (c ∉ (['0', '1', '2', '3', '4', '5', '6', '7', '8', '9',
      '.', ',', '-', '+'] : List Char)))

/-- i64 digits: nonempty, all decimal, within the signed 64-bit range. -/
def intDigitsOk (ds : List Char) (neg : Bool) : Bool :=
  decide (ds ≠ []) && ds.all Char.isDigit &&
    (let n := ds.foldl (fun a c => a * 10 + (c.toNat - 48)) 0
     if neg then n ≤ 9223372036854775808 else n ≤ 9223372036854775807)

/-- try_parse_integer of datatype.rs (value.parse::<i64>(): optional
sign, decimal digits, 64-bit signed range). -/
def tryParseInteger (value : List Char) : Bool :=
  match value with
  | [] => false
  | c :: cs =>
      if c = '+' then intDigitsOk cs false
      else if c = '-' then intDigitsOk cs true
      else intDigitsOk (c :: cs) false

/-- Exponent tail of the f64 grammar. -/
def floatExpOk : List Char → Bool
  | [] => true
  | 'e' :: r =>
      (match r with
       | '+' :: d => decide (d ≠ []) && d.all Char.isDigit
       | '-' :: d => decide (d ≠ []) && d.all Char.isDigit
       | d => decide (d ≠ []) && d.all Char.isDigit)
  | 'E' :: r =>
      (match r with
       | '+' :: d => decide (d ≠ []) && d.all Char.isDigit
       | '-' :: d => decide (d ≠ []) && d.all Char.isDigit
       | d => decide (d ≠ []) && d.all Char.isDigit)
  | _ => false

/-- The f64 FromStr grammar of Rust (recognition only: parse::<f64>()
fails exactly on grammar mismatch, overflow saturating to infinity). -/
def floatGrammar (value : List Char) : Bool :=
  let s := match value with
    | '+' :: r => r
    | '-' :: r => r
    | r => r
  if lowerList s = "inf".toList ∨ lowerList s = "infinity".toList ∨
      lowerList s = "nan".toList then true
  else
    let intPart := s.takeWhile Char.isDigit
    match s.drop intPart.length with
    | '.' :: r2 =>
        let frac := r2.takeWhile Char.isDigit
        (decide (intPart ≠ []) || decide (frac ≠ [])) && floatExpOk (r2.drop frac.length)
    | r2 => decide (intPart ≠ []) && floatExpOk r2

/-- try_parse_float of datatype.rs: comma decimal separators
normalized to dots, then the f64 grammar. -/
def tryParseFloatV (value : List Char) : Bool :=
  floatGrammar (value.map (fun c => if c = ',' then '.' else c))

/-- detect_value_type of datatype.rs (the boolean state is threaded
explicitly in place of the mutable reference). -/
def detectValueType (value0 : List Char) (bs : BooleanState) : DataType × BooleanState :=
  let value := trimList value0
  if value = [] then (DataType.string, bs)
  else if !couldBeDatetime value && isStringValue value then (DataType.string, bs)
  else
    match tryParseBooleanV value with
    | some isStringBool =>
        (DataType.boolean, if isStringBool then ⟨true⟩ else bs)
    | none =>
        if tryParseInteger value then (DataType.integer, bs)
        else if tryParseFloatV value then (DataType.float, bs)
        else if (guessDatetimeFormat value DateTimePatterns.new).1 then
          (DataType.dateTime, bs)
        else (DataType.string, bs)

/-- downgrade_one_step of datatype.rs. -/
def downgradeOneStep (t : DataType) (bs : BooleanState) : DataType :=
  match t with
  | DataType.boolean => if bs.hadStringBool then DataType.string else DataType.integer
  | DataType.integer => DataType.float
  | DataType.float => DataType.dateTime
  | DataType.dateTime => DataType.string
  | DataType.string => DataType.string

/-- The stepping loop of downgrade_types.  The chain reaches String in
at most four steps, so fuel 5 makes the recursion total and exact. -/
def downgradeChain : Nat → DataType → DataType → BooleanState → DataType
  | 0, t, _, _ => t
  | fuel + 1, t, t2, bs =>
      if t = t2 ∨ t = DataType.string then t
      else
        let t' := downgradeOneStep t bs
        if t' = t2 then t'
        else downgradeChain fuel t' t2 bs

/-- downgrade_types of datatype.rs, arms in source order. -/
def downgradeTypes (type1 type2 : DataType) (bs : BooleanState) : DataType :=
  if type1 = type2 then type1
  else if (type1 = DataType.integer ∧ type2 = DataType.float) ∨
      (type1 = DataType.float ∧ type2 = DataType.integer) then DataType.float
  else if ((type1 = DataType.boolean ∧ type2 = DataType.integer) ∨
      (type1 = DataType.integer ∧ type2 = DataType.boolean)) ∧
      bs.hadStringBool = false then DataType.integer
  else if (type1 = DataType.boolean ∨ type2 = DataType.boolean) ∧
      bs.hadStringBool = true then DataType.string
  else downgradeChain 5 type1 type2 bs

/-- The third branch of the per-value dispatch of detect_data_type:
plain value detection, initializing the pattern set when a value first
classifies as datetime. -/
def detectStep3 (value : List Char) (bs : BooleanState) (pats : Option DateTimePatterns) :
    DataType × BooleanState × Option DateTimePatterns :=
  let r := detectValueType value bs
  if r.1 = DataType.dateTime then
    let q := guessDatetimeFormat value DateTimePatterns.new
    if q.1 then (r.1, r.2, some q.2) else (r.1, r.2, pats)
  else (r.1, r.2, pats)

/-- The scanning loop of detect_data_type: per-value classification
with the pattern-set special cases, then the downgrade update; a
downgrade to String ends the column early with no patterns. -/
def detectDataTypeGo :
    List (List Char) → Option DataType → BooleanState → Option DateTimePatterns →
      DataType × Option DateTimePatterns
  | [], cur, _, pats =>
      let final := cur.getD DataType.string
      (final, if final = DataType.dateTime then pats else none)
  | v0 :: rest, cur, bs, pats =>
      let value := trimList v0
      if value = [] then detectDataTypeGo rest cur bs pats
      else
        let s :=
          match pats with
          | some p =>
              if couldBeDatetime value then
                let q := guessDatetimeFormat value p
                if q.1 then (DataType.dateTime, bs, some q.2)
                else
                  let r := detectValueType value bs
                  (r.1, r.2, some q.2)
              else detectStep3 value bs (some p)
          | none =>
              if couldBeDatetime value ∧ cur = some DataType.dateTime then
                let q := guessDatetimeFormat value DateTimePatterns.new
                if q.1 then (DataType.dateTime, bs, some q.2)
                else
                  let r := detectValueType value bs
                  (r.1, r.2, none)
              else detectStep3 value bs none
        match cur with
        | none => detectDataTypeGo rest (some s.1) s.2.1 s.2.2
        | some ct =>
            if ct = s.1 then detectDataTypeGo rest cur s.2.1 s.2.2
            else
              let nt := downgradeTypes ct s.1 s.2.1
              if nt = DataType.string then (DataType.string, none)
              else detectDataTypeGo rest (some nt) s.2.1 s.2.2

/-- detect_data_type of datatype.rs. -/
def detectDataType (values : List (List Char)) (metaType : Option DataType) :
    DataType × Option DateTimePatterns :=
  if values = [] then (metaType.getD DataType.string, none)
  else detectDataTypeGo values none ⟨false⟩ none

/-- A numeric-form boolean field (0 or 1 after trimming). -/
def isNumBoolV (v : List Char) : Prop :=
  trimList v = "0".toList ∨ trimList v = "1".toList

/-- A string-form boolean field (true or false after trimming). -/
def isStrBoolV (v : List Char) : Prop :=
  trimList v = "true".toList ∨ trimList v = "false".toList

/-- An integer field that is not boolean-shaped. -/
def isIntNonBoolV (v : List Char) : Prop :=
  tryParseInteger (trimList v) = true ∧ tryParseBooleanV (trimList v) = none

/-! ## Charset detection and decoding (detection/charset.rs) -/

/-- is_ascii of charset.rs. -/
def isAscii (data : List Nat) : Bool := data.all (fun b => b < 128)

/-- CSVA_GUESS_SIZE of types.rs. -/
def CSVA_GUESS_SIZE : Nat := 5120

/-- UTF-8 continuation byte. -/
def isContB (b : Nat) : Bool := 0x80 ≤ b && b ≤ 0xBF

/-- Admissible second byte of a three-byte UTF-8 sequence headed by b
(excluding overlongs for E0 and surrogates for ED). -/
def utf8Second3 (b b2 : Nat) : Bool :=
  (b = 0xE0 && (0xA0 ≤ b2 && b2 ≤ 0xBF)) ||
  ((((0xE1 ≤ b && b ≤ 0xEC) || b = 0xEE) || b = 0xEF) && isContB b2) ||
  (b = 0xED && (0x80 ≤ b2 && b2 ≤ 0x9F))

/-- Admissible second byte of a four-byte UTF-8 sequence headed by b
(excluding overlongs for F0 and codepoints beyond U+10FFFF for F4). -/
def utf8Second4 (b b2 : Nat) : Bool :=
  (b = 0xF0 && (0x90 ≤ b2 && b2 ≤ 0xBF)) ||
  ((0xF1 ≤ b && b ≤ 0xF3) && isContB b2) ||
  (b = 0xF4 && (0x80 ≤ b2 && b2 ≤ 0x8F))

/-- Strict UTF-8 decoding (std::str::from_utf8): rejects overlong
forms, surrogates, and codepoints beyond U+10FFFF. -/
def utf8Decode : List Nat → Option (List Char)
  | [] => some []
  | b :: rest =>
      if b < 0x80 then (utf8Decode rest).map (fun cs => Char.ofNat b :: cs)
      else
        match rest with
        | b2 :: rest2 =>
            if (0xC2 ≤ b && b ≤ 0xDF) && isContB b2 then
              (utf8Decode rest2).map
                (fun cs => Char.ofNat ((b - 0xC0) * 0x40 + (b2 - 0x80)) :: cs)
            else
              match rest2 with
              | b3 :: rest3 =>
                  if utf8Second3 b b2 && isContB b3 then
                    (utf8Decode rest3).map
                      (fun cs =>
                        Char.ofNat (((b - 0xE0) * 0x40 + (b2 - 0x80)) * 0x40
                          + (b3 - 0x80)) :: cs)
                  else
                    match rest3 with
                    | b4 :: rest4 =>
                        if utf8Second4 b b2 && (isContB b3 && isContB b4) then
                          (utf8Decode rest4).map
                            (fun cs =>
                              Char.ofNat ((((b - 0xF0) * 0x40 + (b2 - 0x80)) * 0x40
                                + (b3 - 0x80)) * 0x40 + (b4 - 0x80)) :: cs)
                        else none
                    | [] => none
              | [] => none
        | [] => none

/-- The encoding names of the Encoding Standard, the codomain of the
statistical detector (chardetng returns encoding_rs encodings, whose
name() values these are).  None of them is or normalizes to a bare
ascii/ansi label. -/
def encodingNames : List (List Char) :=
  ["Big5".toList, "EUC-JP".toList, "EUC-KR".toList, "GBK".toList, "IBM866".toList,
   "ISO-2022-JP".toList, "ISO-8859-10".toList, "ISO-8859-13".toList,
   "ISO-8859-14".toList, "ISO-8859-15".toList, "ISO-8859-16".toList,
   "ISO-8859-2".toList, "ISO-8859-3".toList, "ISO-8859-4".toList,
   "ISO-8859-5".toList, "ISO-8859-6".toList, "ISO-8859-7".toList,
   "ISO-8859-8".toList, "ISO-8859-8-I".toList, "KOI8-R".toList, "KOI8-U".toList,
   "Shift_JIS".toList, "UTF-16BE".toList, "UTF-16LE".toList, "UTF-8".toList,
   "gb18030".toList, "macintosh".toList, "replacement".toList,
   "windows-1250".toList, "windows-1251".toList, "windows-1252".toList,
   "windows-1253".toList, "windows-1254".toList, "windows-1255".toList,
   "windows-1256".toList, "windows-1257".toList, "windows-1258".toList,
   "windows-874".toList, "x-mac-cyrillic".toList, "x-user-defined".toList]

/-- normalize_encoding of charset.rs (labels as character lists; the
final branch removes dashes and underscores, as the replace calls with
the empty replacement do). -/
def normalizeEncoding (name : List Char) : List Char :=
  let n := lowerList name
  if n = "utf-8".toList ∨ n = "utf8".toList then "utf8".toList
  else if n = "utf-16le".toList ∨ n = "utf-16 le".toList then "UTF-16LE".toList
  else if n = "utf-16be".toList ∨ n = "utf-16 be".toList then "UTF-16BE".toList
  else if n = "iso-8859-1".toList ∨ n = "iso8859-1".toList ∨ n = "latin1".toList then
    "iso88591".toList
  else if n = "iso-8859-15".toList ∨ n = "iso8859-15".toList ∨ n = "latin9".toList then
    "iso885915".toList
  else if n = "windows-1252".toList ∨ n = "cp1252".toList then "cp1252".toList
  else if n = "windows-1251".toList ∨ n = "cp1251".toList then "cp1251".toList
  else if n = "ascii".toList then "ansi".toList
  else (n.filter (fun c => c ≠ '-')).filter (fun c => c ≠ '_')

/-- guess_encoding_quick of charset.rs, with the statistical detector
abstracted as a parameter. -/
def guessEncodingQuick (stat : List Nat → List Char) (data : List Nat) : List Char :=
  if isAscii data then "ansi".toList
  else if (utf8Decode data).isSome then "utf8".toList
  else normalizeEncoding (stat data)

/-- detect_charset of charset.rs, with the statistical detector
abstracted as a parameter. -/
def detectCharset (stat : List Nat → List Char) (data : List Nat) : List Char :=
  if data.take 3 = [0xEF, 0xBB, 0xBF] then "UTF-8BOM".toList
  else if data.take 2 = [0xFF, 0xFE] then "UTF-16LE".toList
  else if data.take 2 = [0xFE, 0xFF] then "UTF-16BE".toList
  else if data.length ≤ CSVA_GUESS_SIZE then guessEncodingQuick stat data
  else if isAscii data then "ansi".toList
  else normalizeEncoding (stat data)

/-- convert_to_utf8 of charset.rs, with the lossy non-UTF-8 decoding
of encoding_rs abstracted as a parameter (that path never fails). -/
def convertToUtf8 (lossyDecode : List Nat → List Char → List Char)
    (data : List Nat) (charset : List Char) : Except (List Char) (List Char) :=
  let cl := lowerList charset
  let data' :=
    if cl = "utf-8bom".toList ∧ data.take 3 = [0xEF, 0xBB, 0xBF] then data.drop 3
    else if (cl = "utf-16le".toList ∨ cl = "utf16le".toList) ∧
        data.take 2 = [0xFF, 0xFE] then data.drop 2
    else if (cl = "utf-16be".toList ∨ cl = "utf16be".toList) ∧
        data.take 2 = [0xFE, 0xFF] then data.drop 2
    else data
  if cl = "utf8".toList ∨ cl = "utf-8".toList ∨ cl = "utf-8bom".toList ∨
      cl = "ansi".toList ∨ cl = "ascii".toList then
    match utf8Decode data' with
    | some cs => Except.ok cs
    | none => Except.error "Invalid UTF-8".toList
  else Except.ok (lossyDecode data' charset)

/-! ## Theorems -/

/-- quoteLineStep keeps the candidate spine (the list of candidate
characters) unchanged. -/
theorem quoteLineStep_spine (stats : List (Char × Nat × Nat)) (line : List Char) :
    (quoteLineStep stats line).map Prod.fst = stats.map Prod.fst := by
  induction stats with
  | nil => rfl
  | cons st rest ih =>
      obtain ⟨c, tot, lns⟩ := st
      simp only [quoteLineStep]
      split <;> simp [ih]

/-- Folding quoteLineStep over any line list keeps the candidate spine. -/
theorem quoteFold_spine (lines : List (List Char)) (stats : List (Char × Nat × Nat)) :
    ((lines.foldl quoteLineStep stats).map Prod.fst) = stats.map Prod.fst := by
  induction lines generalizing stats with
  | nil => rfl
  | cons l rest ih => rw [List.foldl_cons, ih, quoteLineStep_spine]

/-- quoteBest only returns an element of the statistics list with a
positive total (or its accumulator unchanged). -/
theorem quoteBest_mem (stats : List (Char × Nat × Nat)) :
    ∀ (b st : Option (Char × Nat × Nat)), st.isSome →
      quoteBest stats b = st →
      ((∃ x ∈ stats, st = some x ∧ 0 < x.2.1) ∨ b = st) := by
  induction stats with
  | nil => intro b st _ h; right; exact h
  | cons x rest ih =>
      intro b st hsome h
      simp only [quoteBest] at h
      rcases ih _ _ hsome h with ⟨y, hy, rfl, hpos⟩ | hb
      · exact Or.inl ⟨y, List.mem_cons_of_mem _ hy, rfl, hpos⟩
      · split at hb
        · rename_i hcond
          refine Or.inl ⟨x, List.mem_cons_self .., hb.symm, ?_⟩
          have hpos := (Bool.and_eq_true _ _).mp hcond |>.1
          exact of_decide_eq_true hpos
        · exact Or.inr hb

/-- After processing a line on which candidate c shows an odd count,
and on which no earlier candidate shows an odd count (which would skip
c via the break), every statistics entry for c has total 0. -/
theorem quoteLineStep_reset (stats : List (Char × Nat × Nat)) (line : List Char) (c : Char)
    (hnodup : (stats.map Prod.fst).Nodup)
    (hodd : countChar c line % 2 = 1)
    (hskip : ∀ d ∈ (stats.map Prod.fst).takeWhile (fun d => d != c),
      countChar d line % 2 = 0) :
    ∀ st ∈ quoteLineStep stats line, st.1 = c → st.2.1 = 0 := by
  induction stats with
  | nil => intro st h; simp [quoteLineStep] at h
  | cons x rest ih =>
      obtain ⟨d, tot, lns⟩ := x
      intro st hst hc
      by_cases hdc : d = c
      · subst hdc
        simp only [quoteLineStep, hodd] at hst
        rw [if_pos (by omega)] at hst
        rcases List.mem_cons.mp hst with rfl | hmem
        · rfl
        · exfalso
          have : st.1 ∈ rest.map Prod.fst := List.mem_map_of_mem _ hmem
          rw [hc] at this
          simp only [List.map_cons, List.nodup_cons] at hnodup
          exact hnodup.1 this
      · have hdeven : countChar d line % 2 = 0 := by
          apply hskip d
          simp only [List.map_cons, List.takeWhile_cons]
          rw [if_pos (by simp [hdc])]
          exact List.mem_cons_self ..
        simp only [quoteLineStep] at hst
        rw [if_neg (by omega)] at hst
        rcases List.mem_cons.mp hst with rfl | hmem
        · exact absurd hc hdc
        · refine ih ?_ ?_ st hmem hc
          · simpa using hnodup.of_cons
          · intro e he
            apply hskip e
            simp only [List.map_cons, List.takeWhile_cons]
            rw [if_pos (by simp [hdc])]
            exact List.mem_cons_of_mem _ he

/-- The selection loop of detect_email_column computes the first index
attaining the positive maximum of the tallies (and keeps its
accumulator when nothing beats the threshold). -/
theorem pickBestAux_spec (cs : List Nat) :
    ∀ (i : Nat) (bc : Option Nat) (b : Nat),
      pickBestAux cs i bc b =
        if listMax cs ≤ b then bc
        else some (i + cs.findIdx (fun c => c = listMax cs)) := by
  induction cs with
  | nil =>
      intro i bc b
      simp [pickBestAux, listMax]
  | cons c rest ih =>
      intro i bc b
      have hmax : listMax (c :: rest) = max c (listMax rest) := rfl
      simp only [pickBestAux, hmax]
      by_cases hc : c > b
      · rw [if_pos hc, ih]
        by_cases hm : listMax rest ≤ c
        · rw [if_pos hm, if_neg (by omega)]
          have hcmax : max c (listMax rest) = c := by omega
          rw [hcmax, List.findIdx_cons]
          simp
        · rw [if_neg hm, if_neg (by omega)]
          have hcmax : max c (listMax rest) = listMax rest := by omega
          rw [hcmax, List.findIdx_cons]
          have : (decide (c = listMax rest)) = false := by
            simp only [decide_eq_false_iff_not]
            omega
          rw [this]
          simp only [cond_false]
          congr 1
          omega
      · rw [if_neg hc, ih]
        by_cases hm : listMax rest ≤ b
        · rw [if_pos hm, if_pos (by omega)]
        · rw [if_neg hm, if_neg (by omega)]
          have hcmax : max c (listMax rest) = listMax rest := by omega
          rw [hcmax, List.findIdx_cons]
          have : (decide (c = listMax rest)) = false := by
            simp only [decide_eq_false_iff_not]
            omega
          rw [this]
          simp only [cond_false]
          congr 1
          omega

/-- A header scan over names none of which lowercases to a target
finds nothing. -/
theorem headerFindAux_none (hs : List (List Char)) :
    ∀ (i : Nat) (targets : List (List Char)),
      (∀ nm ∈ hs, lowerList nm ∉ targets) →
      headerFindAux hs i targets = none := by
  induction hs with
  | nil => intro i targets _; rfl
  | cons h rest ih =>
      intro i targets hno
      simp only [headerFindAux]
      rw [if_neg (hno h (List.mem_cons_self ..))]
      exact ih _ _ (fun nm hnm => hno nm (List.mem_cons_of_mem _ hnm))

/-- C2, counterexample: with a single data row holding two distinct
valid emails the per-column tallies tie at 1, and detect_email_column
returns column 0 instead of failing: a tie for the maximum is not an
EmailColumnNotFound error. -/
theorem C2_counterexample :
    emailCounts [["a@b.cd".toList, "e@f.gh".toList]] 2 = [1, 1] ∧
      detectEmailColumn [["a@b.cd".toList, "e@f.gh".toList]] none false = some 0 := by
  exact ⟨rfl, rfl⟩

/-- C2, amended: with data rows present and no header column named
email / e-mail, detect_email_column returns the first column attaining
the maximum per-column valid-email tally when that maximum is
positive — so a strictly highest tally wins, and a tie for the maximum
returns the smallest tied index rather than an error — and when every
tally is zero it returns none, which analyze_internal turns into the
EmailColumnNotFound error. -/
theorem C2_amended (rows : List (List (List Char))) (r0 : List (List Char))
    (rs : List (List (List Char))) (header : Option (List (List Char))) (skip : Bool)
    (hrows : rows = r0 :: rs) (hr0 : r0 ≠ [])
    (hhd : skip = true → ∀ hs, header = some hs → ∀ nm ∈ hs,
      lowerList nm ≠ "email".toList ∧ lowerList nm ≠ "e-mail".toList) :
    detectEmailColumn rows header skip = emailColumnSpec (emailCounts rows r0.length) ∧
    (emailColumnSpec (emailCounts rows r0.length) = none →
      analyzerEmailStep (detectEmailColumn rows header skip) =
        Except.error CsvErrorType.emailNotFound) := by
  subst hrows
  have hlen : ¬ (r0.length = 0) := by
    simpa [List.length_eq_zero] using hr0
  have hfind1 : (if skip then
      (match header with
       | some hs => headerFindAux hs 0 ["email".toList, "e-mail".toList]
       | none => none)
      else none) = none := by
    cases skip with
    | false => rfl
    | true =>
        cases header with
        | none => rfl
        | some hs =>
            simp only
            apply headerFindAux_none
            intro nm hnm hmem
            have := hhd rfl hs rfl nm hnm
            rcases List.mem_cons.mp hmem with h1 | h2
            · exact this.1 h1
            · rcases List.mem_cons.mp h2 with h3 | h4
              · exact this.2 h3
              · simp at h4
  have hfind2 : (if skip then
      (match header with
       | some hs => headerFindAux hs 0 ["e-mail".toList]
       | none => none)
      else none) = none := by
    cases skip with
    | false => rfl
    | true =>
        cases header with
        | none => rfl
        | some hs =>
            simp only
            apply headerFindAux_none
            intro nm hnm hmem
            have := hhd rfl hs rfl nm hnm
            rcases List.mem_cons.mp hmem with h1 | h2
            · exact this.2 h1
            · simp at h2
  have hmain : detectEmailColumn (r0 :: rs) header skip =
      emailColumnSpec (emailCounts (r0 :: rs) r0.length) := by
    simp only [detectEmailColumn, if_neg hlen]
    rw [hfind1]
    simp only
    rw [pickBestAux_spec]
    by_cases hz : listMax (emailCounts (r0 :: rs) r0.length) ≤ 0
    · rw [if_pos hz]
      simp only
      rw [hfind2]
      unfold emailColumnSpec
      have hz0 : listMax (emailCounts (r0 :: rs) r0.length) = 0 := by omega
      rw [if_pos hz0]
    · rw [if_neg hz]
      unfold emailColumnSpec
      have hz1 : ¬ listMax (emailCounts (r0 :: rs) r0.length) = 0 := by omega
      rw [if_neg hz1]
      simp
  refine ⟨hmain, fun hnone => ?_⟩
  rw [hmain, hnone]
  rfl

/-- Occurrences of a value in a count list. -/
def countOcc : Nat → List Nat → Nat
  | _, [] => 0
  | k, x :: rest => (if x = k then 1 else 0) + countOcc k rest

/-- Keys of a bucket. -/
def keysB (b : List (Nat × Nat)) : List Nat := b.map Prod.fst

theorem bumpBucket_length (b : List (Nat × Nat)) (k : Nat) :
    b.length ≤ (bumpBucket b k).length ∧ (bumpBucket b k).length ≤ b.length + 1 := by
  induction b with
  | nil => simp [bumpBucket]
  | cons p rest ih =>
      obtain ⟨k0, n⟩ := p
      simp only [bumpBucket]
      split
      · simp
      · simp only [List.length_cons]
        omega

theorem bucketFold_length_mono (counts : List Nat) :
    ∀ b : List (Nat × Nat), b.length ≤ (counts.foldl bumpBucket b).length := by
  induction counts with
  | nil => intro b; simp
  | cons k rest ih =>
      intro b
      calc b.length ≤ (bumpBucket b k).length := (bumpBucket_length b k).1
        _ ≤ _ := ih (bumpBucket b k)

/-- The early-exit bucketing loop is the pure bucket fold followed by
one size check. -/
theorem buildBucket_eq (counts : List Nat) :
    ∀ b : List (Nat × Nat), b.length ≤ MAX_BUCKET →
      buildBucket b counts =
        if (counts.foldl bumpBucket b).length > MAX_BUCKET then
          Except.error CsvErrorType.variousFieldsCount
        else Except.ok (counts.foldl bumpBucket b) := by
  induction counts with
  | nil =>
      intro b hb
      have : ¬ (([] : List Nat).foldl bumpBucket b).length > MAX_BUCKET := by
        simpa using hb
      rw [if_neg this]
      rfl
  | cons k rest ih =>
      intro b hb
      simp only [buildBucket, List.foldl_cons]
      by_cases hlen : (bumpBucket b k).length > MAX_BUCKET
      · rw [if_pos hlen]
        have hmono := bucketFold_length_mono rest (bumpBucket b k)
        rw [if_pos (by omega)]
      · rw [if_neg hlen]
        exact ih (bumpBucket b k) (by omega)

theorem lookupB_bump (b : List (Nat × Nat)) (j k : Nat) :
    lookupB (bumpBucket b j) k =
      if j = k then lookupB b k + 1 else lookupB b k := by
  induction b with
  | nil =>
      by_cases h : j = k <;> simp [lookupB, bumpBucket, h]
  | cons p rest ih =>
      obtain ⟨k0, n⟩ := p
      simp only [bumpBucket]
      by_cases h0 : k0 = j
      · subst h0
        simp only [if_pos rfl, lookupB]
        by_cases hk : k0 = k
        · subst hk; simp [lookupB]
        · rw [if_neg hk, if_neg hk, if_neg (by omega)]
      · rw [if_neg h0]
        simp only [lookupB]
        by_cases hk : k0 = k
        · subst hk
          rw [if_pos rfl, if_pos rfl, if_neg (by omega)]
        · rw [if_neg hk, if_neg hk, ih]

theorem lookupB_fold (counts : List Nat) :
    ∀ (b : List (Nat × Nat)) (k : Nat),
      lookupB (counts.foldl bumpBucket b) k = lookupB b k + countOcc k counts := by
  induction counts with
  | nil => intro b k; simp [countOcc]
  | cons x rest ih =>
      intro b k
      simp only [List.foldl_cons, countOcc, ih, lookupB_bump]
      split <;> omega

theorem keysB_bump (b : List (Nat × Nat)) (j : Nat) :
    keysB (bumpBucket b j) = if j ∈ keysB b then keysB b else keysB b ++ [j] := by
  induction b with
  | nil => simp [bumpBucket, keysB]
  | cons p rest ih =>
      obtain ⟨k0, n⟩ := p
      simp only [bumpBucket]
      by_cases h0 : k0 = j
      · subst h0
        simp [keysB]
      · rw [if_neg h0]
        simp only [keysB, List.map_cons] at ih ⊢
        rw [ih]
        by_cases hj : j ∈ rest.map Prod.fst
        · rw [if_pos hj, if_pos (by simp [hj])]
        · rw [if_neg hj, if_neg (by simp [hj, Ne.symm h0])]
          simp

theorem keysB_bump_nodup (b : List (Nat × Nat)) (j : Nat)
    (h : (keysB b).Nodup) : (keysB (bumpBucket b j)).Nodup := by
  rw [keysB_bump]
  split
  · exact h
  · rename_i hj
    simpa [List.nodup_append] using ⟨h, hj⟩

theorem keysB_fold_nodup (counts : List Nat) :
    ∀ b : List (Nat × Nat), (keysB b).Nodup → (keysB (counts.foldl bumpBucket b)).Nodup := by
  induction counts with
  | nil => intro b h; simpa using h
  | cons x rest ih =>
      intro b h
      exact ih (bumpBucket b x) (keysB_bump_nodup b x h)

theorem mem_keysB_fold (counts : List Nat) :
    ∀ (b : List (Nat × Nat)) (k : Nat),
      k ∈ keysB (counts.foldl bumpBucket b) ↔ k ∈ keysB b ∨ k ∈ counts := by
  induction counts with
  | nil => intro b k; simp
  | cons x rest ih =>
      intro b k
      simp only [List.foldl_cons, ih, keysB_bump]
      split
      · rename_i hx
        constructor
        · rintro (h | h)
          · exact Or.inl h
          · exact Or.inr (List.mem_cons_of_mem _ h)
        · rintro (h | h)
          · exact Or.inl h
          · rcases List.mem_cons.mp h with rfl | h2
            · exact Or.inl hx
            · exact Or.inr h2
      · constructor
        · rintro (h | h)
          · rcases List.mem_append.mp h with h1 | h1
            · exact Or.inl h1
            · simp only [List.mem_singleton] at h1
              exact Or.inr (h1 ▸ List.mem_cons_self ..)
          · exact Or.inr (List.mem_cons_of_mem _ h)
        · rintro (h | h)
          · exact Or.inl (List.mem_append.mpr (Or.inl h))
          · rcases List.mem_cons.mp h with rfl | h2
            · exact Or.inl (List.mem_append.mpr (Or.inr (by simp)))
            · exact Or.inr h2

theorem sumB_bump (b : List (Nat × Nat)) (j : Nat) :
    sumB (bumpBucket b j) = sumB b + 1 := by
  induction b with
  | nil => simp [bumpBucket, sumB]
  | cons p rest ih =>
      obtain ⟨k0, n⟩ := p
      simp only [bumpBucket]
      split
      · simp [sumB]; omega
      · simp only [sumB, List.map_cons, List.sum_cons] at ih ⊢
        omega

theorem sumB_fold (counts : List Nat) :
    ∀ b : List (Nat × Nat), sumB (counts.foldl bumpBucket b) = sumB b + counts.length := by
  induction counts with
  | nil => intro b; simp
  | cons x rest ih =>
      intro b
      simp only [List.foldl_cons, ih, sumB_bump, List.length_cons]
      omega

theorem lookupB_mem (b : List (Nat × Nat)) (k : Nat) (h : k ∈ keysB b) :
    (k, lookupB b k) ∈ b := by
  induction b with
  | nil => simp [keysB] at h
  | cons p rest ih =>
      obtain ⟨k0, n⟩ := p
      simp only [lookupB]
      by_cases hk : k0 = k
      · subst hk
        rw [if_pos rfl]
        exact List.mem_cons_self ..
      · rw [if_neg hk]
        have : k ∈ keysB rest := by
          simpa [keysB, hk, Ne.symm hk] using h
        exact List.mem_cons_of_mem _ (ih this)

theorem snd_le_sumB (b : List (Nat × Nat)) (p : Nat × Nat) (h : p ∈ b) :
    p.2 ≤ sumB b := by
  induction b with
  | nil => simp at h
  | cons q rest ih =>
      rcases List.mem_cons.mp h with rfl | h2
      · simp [sumB]
      · simp only [sumB, List.map_cons, List.sum_cons]
        have := ih h2
        simp only [sumB] at this
        omega

theorem findWinner_sound (total : Nat) (bucket : List (Nat × Nat)) (r : ValidationResult)
    (h : findWinner total bucket = Except.ok r) :
    ∃ p ∈ bucket, p.1 = r.columnsCount ∧ r.errorRow = 0 ∧
      (p.2 * 100) / total ≥ COLUMN_COUNT_PERCENT ∧ p.1 ≤ MAX_COLUMNS := by
  induction bucket with
  | nil => simp [findWinner] at h
  | cons p rest ih =>
      obtain ⟨k, occ⟩ := p
      simp only [findWinner] at h
      split at h
      · rename_i hcov
        split at h
        · exact absurd h (by simp)
        · rename_i hcols
          obtain rfl : ValidationResult.mk k 0 = r := by
            simpa using h
          exact ⟨(k, occ), List.mem_cons_self .., rfl, rfl, hcov, by omega⟩
      · obtain ⟨p, hp, h1, h2, h3, h4⟩ := ih h
        exact ⟨p, List.mem_cons_of_mem _ hp, h1, h2, h3, h4⟩

theorem findWinner_complete (bucket : List (Nat × Nat)) (total k occ : Nat)
    (htot : 0 < total) (hsum : sumB bucket ≤ total)
    (hmem : (k, occ) ∈ bucket)
    (hcov : 90 * total ≤ occ * 100) (hcols : k ≤ MAX_COLUMNS) :
    findWinner total bucket = Except.ok ⟨k, 0⟩ := by
  induction bucket with
  | nil => simp at hmem
  | cons p rest ih =>
      obtain ⟨k0, o0⟩ := p
      simp only [findWinner]
      by_cases hhead : (o0 * 100) / total ≥ COLUMN_COUNT_PERCENT
      · have hcov0 : 90 * total ≤ o0 * 100 := by
          have := (Nat.le_div_iff_mul_le htot).mp hhead
          simpa [COLUMN_COUNT_PERCENT, Nat.mul_comm] using this
        rcases List.mem_cons.mp hmem with heq | hrest
        · injection heq with h1 h2
          subst h1
          subst h2
          rw [if_pos hhead, if_neg (by omega)]
        · exfalso
          have hle : occ ≤ sumB rest := snd_le_sumB rest (k, occ) hrest
          have : sumB ((k0, o0) :: rest) = o0 + sumB rest := by
            simp [sumB]
          omega
      · rw [if_neg hhead]
        have hknot : ¬ (k = k0 ∧ occ = o0) := by
          rintro ⟨rfl, rfl⟩
          apply hhead
          rw [ge_iff_le, Nat.le_div_iff_mul_le htot]
          simpa [COLUMN_COUNT_PERCENT] using hcov
        have hrest : (k, occ) ∈ rest := by
          rcases List.mem_cons.mp hmem with heq | h2
          · exact absurd (by simpa using heq) hknot
          · exact h2
        apply ih _ hrest
        have : sumB ((k0, o0) :: rest) = o0 + sumB rest := by simp [sumB]
        omega

theorem countOcc_pos_of_mem (k : Nat) (l : List Nat) (h : k ∈ l) : 0 < countOcc k l := by
  induction l with
  | nil => simp at h
  | cons x rest ih =>
      simp only [countOcc]
      rcases List.mem_cons.mp h with rfl | h2
      · simp
      · have := ih h2
        omega

theorem countOcc_zero_of_not_mem (k : Nat) (l : List Nat) (h : k ∉ l) :
    countOcc k l = 0 := by
  induction l with
  | nil => rfl
  | cons x rest ih =>
      simp only [countOcc]
      have hxk : ¬ x = k := by
        intro he; subst he; exact h (List.mem_cons_self ..)
      rw [if_neg hxk]
      simpa using ih (fun hm => h (List.mem_cons_of_mem _ hm))

theorem key_unique (b : List (Nat × Nat)) (hnodup : (keysB b).Nodup)
    (k a a' : Nat) (h1 : (k, a) ∈ b) (h2 : (k, a') ∈ b) : a = a' := by
  induction b with
  | nil => simp at h1
  | cons p rest ih =>
      obtain ⟨k0, n⟩ := p
      have hnd : (keysB rest).Nodup := by
        simpa [keysB] using hnodup.of_cons
      have hk0 : k0 ∉ keysB rest := by
        have := hnodup
        simp only [keysB, List.map_cons, List.nodup_cons] at this
        exact this.1
      rcases List.mem_cons.mp h1 with he1 | hr1 <;> rcases List.mem_cons.mp h2 with he2 | hr2
      · injection he1 with e1 e2
        injection he2 with e3 e4
        omega
      · injection he1 with e1 e2
        exfalso
        apply hk0
        rw [← e1]
        exact List.mem_map_of_mem _ hr2
      · injection he2 with e1 e2
        exfalso
        apply hk0
        rw [← e1]
        exact List.mem_map_of_mem _ hr1
      · exact ih hnd hr1 hr2

theorem findWinner_none (total : Nat) (bucket : List (Nat × Nat))
    (h : ∀ p ∈ bucket, ¬ ((p.2 * 100) / total ≥ COLUMN_COUNT_PERCENT)) :
    findWinner total bucket = Except.error CsvErrorType.variousFieldsCount := by
  induction bucket with
  | nil => rfl
  | cons p rest ih =>
      obtain ⟨k, occ⟩ := p
      simp only [findWinner]
      rw [if_neg (h (k, occ) (List.mem_cons_self ..))]
      exact ih (fun q hq => h q (List.mem_cons_of_mem _ hq))

/-- The number of bucket entries is the number of distinct counts. -/
theorem keysB_length_dedup (counts : List Nat) :
    (keysB (counts.foldl bumpBucket [])).length = counts.dedup.length := by
  have hnd1 : (keysB (counts.foldl bumpBucket [])).Nodup :=
    keysB_fold_nodup counts [] (by simp [keysB])
  have hnd2 : counts.dedup.Nodup := List.nodup_dedup counts
  have hperm : List.Perm (keysB (counts.foldl bumpBucket [])) counts.dedup := by
    rw [List.perm_ext_iff_of_nodup hnd1 hnd2]
    intro a
    rw [mem_keysB_fold, List.mem_dedup]
    simp [keysB]
  exact hperm.length_eq

/-- Every bucket entry carries the occurrence count of its key. -/
theorem bucket_entry_count (counts : List Nat) (p : Nat × Nat)
    (hp : p ∈ counts.foldl bumpBucket []) : p.2 = countOcc p.1 counts := by
  obtain ⟨k, v⟩ := p
  have hnd : (keysB (counts.foldl bumpBucket [])).Nodup :=
    keysB_fold_nodup counts [] (by simp [keysB])
  have hkey : k ∈ keysB (counts.foldl bumpBucket []) := by
    have := List.mem_map_of_mem Prod.fst hp
    simpa [keysB] using this
  have hmem := lookupB_mem _ _ hkey
  have hlook : lookupB (counts.foldl bumpBucket []) k = countOcc k counts := by
    rw [lookupB_fold]; simp [lookupB]
  simpa [hlook] using key_unique _ hnd k v (lookupB (counts.foldl bumpBucket []) k) hp hmem

/-- C3: column-count consensus.  The two concrete examples of the spec
behave as stated, more than MAX_BUCKET distinct per-line counts abort
with the variation error, a count covering at least 90 percent of the
lines (and within the column cap) is returned as the file's column
count, and the variation error is returned when no count reaches the
required percentage. -/
theorem C3_column_count_consensus :
    (validateColumnsCount ["a,b,c".toList, "1,2,3".toList, "x,y,z".toList] ',' '"' =
      Except.ok ⟨3, 0⟩) ∧
    (validateColumnsCount ["a,b,c".toList, "1,2".toList, "x,y,z,w".toList] ',' '"' =
      Except.error CsvErrorType.variousFieldsCount) ∧
    (∀ (lines : List (List Char)) (delim tsep : Char), lines ≠ [] → delim ≠ '\x00' →
      ((lines.map (fun l => countDelimiters delim l tsep + 1)).dedup.length > MAX_BUCKET →
        validateColumnsCount lines delim tsep =
          Except.error CsvErrorType.variousFieldsCount) ∧
      (∀ c : Nat,
        (lines.map (fun l => countDelimiters delim l tsep + 1)).dedup.length ≤ MAX_BUCKET →
        90 * lines.length ≤
          100 * countOcc c (lines.map (fun l => countDelimiters delim l tsep + 1)) →
        c ≤ MAX_COLUMNS →
        validateColumnsCount lines delim tsep = Except.ok ⟨c, 0⟩) ∧
      ((lines.map (fun l => countDelimiters delim l tsep + 1)).dedup.length ≤ MAX_BUCKET →
        (∀ c : Nat,
          100 * countOcc c (lines.map (fun l => countDelimiters delim l tsep + 1)) <
            90 * lines.length) →
        validateColumnsCount lines delim tsep =
          Except.error CsvErrorType.variousFieldsCount)) := by
  refine ⟨by rfl, by rfl, ?_⟩
  intro lines delim tsep hne hdelim
  set counts := lines.map (fun l => countDelimiters delim l tsep + 1) with hcounts
  have htot : 0 < lines.length := List.length_pos.mpr hne
  have hcountlen : counts.length = lines.length := by
    rw [hcounts, List.length_map]
  have hvc : validateColumnsCount lines delim tsep =
      match buildBucket [] counts with
      | Except.error e => Except.error e
      | Except.ok bucket => findWinner lines.length bucket := by
    unfold validateColumnsCount
    rw [if_neg hne, if_neg hdelim]
  have hbuild := buildBucket_eq counts [] (by simp [MAX_BUCKET])
  have hlen : (counts.foldl bumpBucket []).length = counts.dedup.length := by
    have := keysB_length_dedup counts
    simpa [keysB] using this
  have hsum : sumB (counts.foldl bumpBucket []) = lines.length := by
    rw [sumB_fold, hcountlen]
    simp [sumB]
  refine ⟨?_, ?_, ?_⟩
  · intro hdist
    rw [hvc, hbuild, if_pos (by omega)]
  · intro c hdist hcov hcols
    rw [hvc, hbuild, if_neg (by omega)]
    simp only
    have hmemc : c ∈ counts := by
      by_contra habs
      have := countOcc_zero_of_not_mem c counts habs
      omega
    have hkey : c ∈ keysB (counts.foldl bumpBucket []) := by
      rw [mem_keysB_fold]
      exact Or.inr hmemc
    have hmem := lookupB_mem _ _ hkey
    have hlook : lookupB (counts.foldl bumpBucket []) c = countOcc c counts := by
      rw [lookupB_fold]; simp [lookupB]
    rw [hlook] at hmem
    exact findWinner_complete _ _ _ _ htot (by omega) hmem (by omega) hcols
  · intro hdist hnocov
    rw [hvc, hbuild, if_neg (by omega)]
    simp only
    apply findWinner_none
    intro p hp
    have hocc := bucket_entry_count counts p hp
    have := hnocov p.1
    rw [ge_iff_le, Nat.le_div_iff_mul_le htot]
    simp only [COLUMN_COUNT_PERCENT]
    omega

/-- C5: when at least 20 percent of the bytes of the (BOM-stripped,
1024-byte-capped) first line are control bytes, 0xFF, or in
[0x7F, 0xA0], is_binary_data classifies the sample as binary and the
analysis returns the Binary error before any charset detection or
decoding: the outcome is the Binary error for EVERY detector and
decoder, so such content never reaches the decoder. -/
theorem C5_binary_guard (sample : List Nat)
    (detect : List Nat → List Char)
    (decode : List Nat → List Char → Except (List Char) (List Char))
    (h1 : stripBomBytes (firstLineCap sample) ≠ [])
    (h2 : 20 * (stripBomBytes (firstLineCap sample)).length ≤
      100 * ((stripBomBytes (firstLineCap sample)).filter isUnprintable).length) :
    isBinaryData sample = true ∧
      analyzePrefix detect decode sample = Except.error CsvErrorType.binary := by
  have hne : sample ≠ [] := by
    intro h
    apply h1
    rw [h]
    rfl
  have hlen : 0 < (stripBomBytes (firstLineCap sample)).length :=
    List.length_pos.mpr h1
  have hbin : isBinaryData sample = true := by
    unfold isBinaryData
    rw [if_neg hne]
    simp only
    rw [if_neg h1]
    rw [decide_eq_true_eq, ge_iff_le, Nat.le_div_iff_mul_le hlen]
    omega
  refine ⟨hbin, ?_⟩
  unfold analyzePrefix
  rw [hbin]
  rfl

/-- Witness instantiating C5 at the concrete sample 00 41 41 0A: the
first line holds one control byte among three. -/
theorem C5_binary_guard_witness :
    isBinaryData [0, 65, 65, 10] = true ∧
      analyzePrefix (fun _ => "ansi".toList) (fun _ _ => Except.ok []) [0, 65, 65, 10] =
        Except.error CsvErrorType.binary :=
  C5_binary_guard [0, 65, 65, 10] (fun _ => "ansi".toList) (fun _ _ => Except.ok [])
    (by decide) (by decide)

/-- takeWhile over a satisfied block followed by a failing element
keeps exactly the block. -/
theorem takeWhile_all_append (p : Char → Bool) (xs : List Char) (y : Char) (ys : List Char)
    (hxs : ∀ x ∈ xs, p x = true) (hy : p y = false) :
    (xs ++ y :: ys).takeWhile p = xs := by
  induction xs with
  | nil => simp [List.takeWhile_cons, hy]
  | cons x rest ih =>
      simp only [List.cons_append, List.takeWhile_cons, hxs x (List.mem_cons_self ..)]
      rw [ih (fun z hz => hxs z (List.mem_cons_of_mem _ hz))]
      simp

/-- The at-sign scan passes over a block free of at signs. -/
theorem getEmailDelimAux_append (line : List Char) (xs : List Char) :
    ∀ (pos : Nat) (rest : List Char), (∀ c ∈ xs, c ≠ '@') →
      getEmailDelimAux line pos (xs ++ rest) =
        getEmailDelimAux line (pos + xs.length) rest := by
  induction xs with
  | nil => intro pos rest _; simp
  | cons x tail ih =>
      intro pos rest hno
      simp only [List.cons_append, getEmailDelimAux]
      rw [if_neg (hno x (List.mem_cons_self ..))]
      simp only [List.append_eq]
      rw [ih (pos + 1) rest (fun c hc => hno c (List.mem_cons_of_mem _ hc))]
      congr 1
      simp [List.length_cons]
      omega

/-- No field delimiter is an email local-part character, an email
domain character, a space... (class facts used by the family proof). -/
theorem fieldDelims_classes :
    (∀ d ∈ FIELD_DELIMS, isEmailLocalChar d = false) ∧
    (∀ d ∈ FIELD_DELIMS, isEmailDomainChar d = false) ∧
    (∀ d ∈ FIELD_DELIMS, d ≠ '@') ∧
    isEmailLocalChar '@' = false := by decide

/-- C7, counterexample: the line x,a%b@x.co|y contains the valid email
a%b@x.co whose first non-space neighbours are the two different known
delimiters comma (priority index 1) and pipe (priority index 3), yet
detection returns the pipe: the left class expansion stops at the
percent sign (absent from EMAIL_LOCAL_CHARS though allowed by the
email regex), so the comma side is never consulted. -/
theorem C7_counterexample :
    isValidEmail "a%b@x.co".toList = true ∧
    getEmailDelimiter "x,a%b@x.co|y".toList = some '|' ∧
    ',' ∈ FIELD_DELIMS ∧ '|' ∈ FIELD_DELIMS ∧
    List.indexOf ',' FIELD_DELIMS < List.indexOf '|' FIELD_DELIMS := by
  refine ⟨by decide, by decide, by decide, by decide, by decide⟩

/-- C7, amended: restricted to emails whose own characters lie in the
detector's expansion classes (EMAIL_LOCAL_CHARS / EMAIL_DOMAIN_CHARS),
the claim holds: for a line whose (unique up to that point) at sign
belongs to such an email flanked on the left and right by known
non-space delimiters, detection returns the delimiter earlier in the
fixed priority list, independent of the side; equal sides return that
delimiter, and a one-sided result is taken as is. -/
theorem C7_amended :
    (∀ (pre post loc dom : List Char) (d1 d2 : Char),
      d1 ∈ FIELD_DELIMS → d2 ∈ FIELD_DELIMS → d1 ≠ ' ' → d2 ≠ ' ' →
      (∀ c ∈ pre, c ≠ '@') →
      (∀ c ∈ loc, isEmailLocalChar c = true) →
      (∀ c ∈ dom, isEmailDomainChar c = true) →
      isValidEmail (lowerList loc ++ '@' :: lowerList dom) = true →
      getEmailDelimiter (pre ++ d1 :: loc ++ '@' :: dom ++ d2 :: post) =
        some (if d1 = d2 then d1 else getPriorityDelimiter d1 d2)) ∧
    (∀ l ∈ FIELD_DELIMS, ∀ r ∈ FIELD_DELIMS, l ≠ r →
      getPriorityDelimiter l r = getPriorityDelimiter r l ∧
      (getPriorityDelimiter l r = l ∨ getPriorityDelimiter l r = r) ∧
      List.indexOf (getPriorityDelimiter l r) FIELD_DELIMS ≤ List.indexOf l FIELD_DELIMS ∧
      List.indexOf (getPriorityDelimiter l r) FIELD_DELIMS ≤ List.indexOf r FIELD_DELIMS) ∧
    (∀ l : Char, chooseDelim (some l) none = some l ∧ chooseDelim none (some l) = some l) := by
  refine ⟨?_, by decide, fun l => ⟨rfl, rfl⟩⟩
  intro pre post loc dom d1 d2 hd1 hd2 hsp1 hsp2 hpre hloc hdom hvalid
  obtain ⟨hlocalF, hdomainF, hatF, _⟩ := fieldDelims_classes
  set B : List Char := dom ++ d2 :: post with hB
  set A : List Char := pre ++ d1 :: loc with hA
  set line : List Char := A ++ '@' :: B with hline
  have hgoal : pre ++ d1 :: loc ++ '@' :: dom ++ d2 :: post = line := by
    rw [hline, hA, hB]
    simp
  rw [hgoal]
  have hnoAtA : ∀ c ∈ A, c ≠ '@' := by
    intro c hc
    rw [hA] at hc
    rcases List.mem_append.mp hc with h | h
    · exact hpre c h
    · rcases List.mem_cons.mp h with rfl | h2
      · exact hatF c hd1
      · intro habs
        have := hloc c h2
        rw [habs] at this
        exact absurd this (by decide)
  have htake : line.take A.length = A := by
    rw [hline]; exact List.take_left A _
  have hdrop : line.drop (A.length + 1) = B := by
    have h1 : line = (A ++ ['@']) ++ B := by rw [hline]; simp
    have hlen : (A ++ ['@']).length = A.length + 1 := by simp
    rw [h1, ← hlen]
    exact List.drop_left _ _
  have hlocalPart : (line.take A.length).reverse.takeWhile isEmailLocalChar =
      loc.reverse := by
    rw [htake, hA]
    have h1 : (pre ++ d1 :: loc).reverse = loc.reverse ++ d1 :: pre.reverse := by simp
    rw [h1]
    exact takeWhile_all_append _ _ _ _
      (fun x hx => hloc x (List.mem_reverse.mp hx)) (hlocalF d1 hd1)
  have hdomainPart : (line.drop (A.length + 1)).takeWhile isEmailDomainChar = dom := by
    rw [hdrop, hB]
    exact takeWhile_all_append _ _ _ _ hdom (hdomainF d2 hd2)
  have hstep : emailDelimAt line A.length =
      some (if d1 = d2 then d1 else getPriorityDelimiter d1 d2) := by
    unfold emailDelimAt
    rw [hlocalPart, hdomainPart, List.reverse_reverse]
    unfold emailDelimDecide
    rw [if_pos hvalid]
    have hlocStart : A.length - loc.length = (pre ++ [d1]).length := by
      rw [hA]; simp; omega
    have htakeStart : line.take ((pre ++ [d1]).length) = pre ++ [d1] := by
      have h1 : line = (pre ++ [d1]) ++ (loc ++ '@' :: B) := by
        rw [hline, hA]; simp
      rw [h1]
      exact List.take_left _ _
    have hleft : sideDelim (line.take (A.length - loc.length)).reverse = some d1 := by
      rw [hlocStart, htakeStart]
      have h1 : (pre ++ [d1]).reverse = d1 :: pre.reverse := by simp
      rw [h1]
      unfold sideDelim
      rw [List.dropWhile_cons_of_neg (by simp [hsp1])]
      simp only
      rw [if_pos (by simpa [isFieldDelimiter] using hd1)]
    have hdropEnd : line.drop (A.length + dom.length + 1) = d2 :: post := by
      have h1 : line = ((A ++ ['@']) ++ dom) ++ d2 :: post := by
        rw [hline, hB]; simp
      have hlen : ((A ++ ['@']) ++ dom).length = A.length + dom.length + 1 := by
        simp
        omega
      rw [h1, ← hlen]
      exact List.drop_left _ _
    have hright : sideDelim (line.drop (A.length + dom.length + 1)) = some d2 := by
      rw [hdropEnd]
      unfold sideDelim
      rw [List.dropWhile_cons_of_neg (by simp [hsp2])]
      simp only
      rw [if_pos (by simpa [isFieldDelimiter] using hd2)]
    rw [hleft, hright]
    by_cases hdd : d1 = d2 <;> simp [chooseDelim, hdd]
  have hscan : getEmailDelimiter line =
      some (if d1 = d2 then d1 else getPriorityDelimiter d1 d2) := by
    show getEmailDelimAux line 0 line = _
    conv_lhs => rw [hline]
    rw [getEmailDelimAux_append _ A 0 _ hnoAtA]
    simp only [getEmailDelimAux, Nat.zero_add, if_pos]
    rw [← hline, hstep]
  exact hscan

/-- Witness instantiating the C7_amended family at the line
a,bob@example.com;c: comma (earlier in priority) wins over semicolon. -/
theorem C7_amended_witness :
    getEmailDelimiter "a,bob@example.com;c".toList =
      some (if ',' = ';' then ',' else getPriorityDelimiter ',' ';') :=
  C7_amended.1 ['a'] ['c'] "bob".toList "example.com".toList ',' ';'
    (by decide) (by decide) (by decide) (by decide) (by decide) (by decide) (by decide)
    (by decide)

/-- A dropped-while head never satisfies the predicate. -/
theorem dropWhile_head_not (p : Char → Bool) (l : List Char) :
    ∀ c, (l.dropWhile p).head? = some c → p c = false := by
  induction l with
  | nil => intro c h; simp at h
  | cons a t ih =>
      intro c h
      rw [List.dropWhile_cons] at h
      split at h
      · exact ih c h
      · rename_i hp
        simp only [List.head?_cons, Option.some_inj] at h
        subst h
        simpa using hp

theorem dropWhile_eq_self_of_head (p : Char → Bool) (l : List Char)
    (h : ∀ c, l.head? = some c → p c = false) : l.dropWhile p = l := by
  cases l with
  | nil => rfl
  | cons a t =>
      rw [List.dropWhile_cons, if_neg]
      simp [h a rfl]

/-- dropWhile is a suffix, so a nonempty result keeps the last
element. -/
theorem dropWhile_getLast (p : Char → Bool) (l : List Char) (hne : l.dropWhile p ≠ []) :
    (l.dropWhile p).getLast? = l.getLast? := by
  induction l with
  | nil => simp [List.dropWhile] at hne
  | cons a t ih =>
      rw [List.dropWhile_cons] at hne ⊢
      by_cases hp : p a = true
      · rw [if_pos hp] at hne ⊢
        cases t with
        | nil => simp [List.dropWhile] at hne
        | cons b t' =>
            rw [ih hne, List.getLast?_cons_cons]
      · rw [if_neg hp] at hne ⊢

theorem trimList_eq_self (t : List Char)
    (h1 : ∀ c, t.head? = some c → isWs c = false)
    (h2 : ∀ c, t.getLast? = some c → isWs c = false) : trimList t = t := by
  unfold trimList
  rw [dropWhile_eq_self_of_head _ _ h1]
  rw [dropWhile_eq_self_of_head _ _ (fun c hc => h2 c (by rwa [List.head?_reverse] at hc))]
  exact List.reverse_reverse t

theorem trimList_idem (s : List Char) : trimList (trimList s) = trimList s := by
  by_cases hne : trimList s = []
  · rw [hne]; rfl
  · apply trimList_eq_self
    · intro c hc
      unfold trimList at hc hne
      rw [List.head?_reverse] at hc
      have hu2ne : (s.dropWhile isWs).reverse.dropWhile isWs ≠ [] := by
        intro h
        apply hne
        rw [h]
        rfl
      rw [dropWhile_getLast _ _ hu2ne, List.getLast?_reverse] at hc
      exact dropWhile_head_not _ _ c hc
    · intro c hc
      unfold trimList at hc
      rw [List.getLast?_reverse] at hc
      exact dropWhile_head_not _ _ c hc

/-- Every decimal digit is in the allowed numeric character set of
is_string_value. -/
theorem digit_in_allowed (c : Char) (h : c.isDigit = true) :
    c ∈ (['0', '1', '2', '3', '4', '5', '6', '7', '8', '9',
      '.', ',', '-', '+'] : List Char) := by
  have hn : 48 ≤ c.toNat ∧ c.toNat ≤ 57 := by
    simp only [Char.isDigit, Bool.and_eq_true, decide_eq_true_eq] at h
    exact ⟨h.1, h.2⟩
  obtain ⟨h1, h2⟩ := hn
  have hofn : Char.ofNat c.toNat = c := Char.ofNat_toNat c
  interval_cases h3 : c.toNat <;> (rw [← hofn]; decide)

/-- An i64-parsable string consists of allowed numeric characters, so
is_string_value rejects it. -/
theorem int_not_stringValue (w : List Char) (h : tryParseInteger w = true) :
    isStringValue w = false := by
  unfold isStringValue
  split
  · rfl
  · rw [List.any_eq_false]
    intro c hc
    simp only [decide_eq_true_eq, Decidable.not_not]
    cases w with
    | nil => simp at hc
    | cons c0 cs =>
        have h' : (if c0 = '+' then intDigitsOk cs false
            else if c0 = '-' then intDigitsOk cs true
            else intDigitsOk (c0 :: cs) false) = true := h
        by_cases h0 : c0 = '+'
        · rw [if_pos h0] at h'
          rcases List.mem_cons.mp hc with rfl | hmem
          · rw [h0]; decide
          · have hall := ((Bool.and_eq_true _ _).mp ((Bool.and_eq_true _ _).mp h').1).2
            exact digit_in_allowed c (List.all_eq_true.mp hall c hmem)
        · rw [if_neg h0] at h'
          by_cases h1 : c0 = '-'
          · rw [if_pos h1] at h'
            rcases List.mem_cons.mp hc with rfl | hmem
            · rw [h1]; decide
            · have hall := ((Bool.and_eq_true _ _).mp ((Bool.and_eq_true _ _).mp h').1).2
              exact digit_in_allowed c (List.all_eq_true.mp hall c hmem)
          · rw [if_neg h1] at h'
            have hall := ((Bool.and_eq_true _ _).mp ((Bool.and_eq_true _ _).mp h').1).2
            exact digit_in_allowed c (List.all_eq_true.mp hall c hc)

/-- A numeric-form boolean classifies as Boolean without touching the
string-boolean flag. -/
theorem detectValueType_numBool (v : List Char) (h : isNumBoolV v) (bs : BooleanState) :
    detectValueType (trimList v) bs = (DataType.boolean, bs) := by
  rcases h with h | h <;> rw [h] <;> rfl

/-- A string-form boolean classifies as Boolean and sets the
string-boolean flag. -/
theorem detectValueType_strBool (v : List Char) (h : isStrBoolV v) (bs : BooleanState) :
    detectValueType (trimList v) bs = (DataType.boolean, ⟨true⟩) := by
  rcases h with h | h <;> rw [h] <;> rfl

/-- A non-boolean integer classifies as Integer, state unchanged. -/
theorem detectValueType_int (v : List Char) (h : isIntNonBoolV v) (bs : BooleanState) :
    detectValueType (trimList v) bs = (DataType.integer, bs) := by
  obtain ⟨hint, hbool⟩ := h
  unfold detectValueType
  rw [trimList_idem]
  have hne : ¬ (trimList v = []) := by
    intro habs
    rw [habs] at hint
    exact absurd hint (by simp [tryParseInteger])
  rw [if_neg hne]
  have hstr : isStringValue (trimList v) = false := int_not_stringValue _ hint
  rw [if_neg (by rw [hstr]; simp)]
  rw [hbool]
  simp only
  rw [if_pos hint]

/-- The empty trimmed value is impossible for the three field classes. -/
theorem class_trim_ne_nil (v : List Char) :
    (isNumBoolV v ∨ isStrBoolV v ∨ isIntNonBoolV v) → trimList v ≠ [] := by
  rintro (h | h | h) habs
  · rcases h with h | h <;> (rw [habs] at h; exact absurd h (by decide))
  · rcases h with h | h <;> (rw [habs] at h; exact absurd h (by decide))
  · obtain ⟨h1, _⟩ := h
    rw [habs] at h1
    exact absurd h1 (by simp [tryParseInteger])

/-- One scanning step of detect_data_type for a value that does not
classify as datetime, with no pattern set alive. -/
theorem go_cons_step (v : List Char) (rest : List (List Char)) (cur : Option DataType)
    (bs : BooleanState)
    (hne : trimList v ≠ [])
    (hcur : cur ≠ some DataType.dateTime)
    (hvt : (detectValueType (trimList v) bs).1 ≠ DataType.dateTime) :
    detectDataTypeGo (v :: rest) cur bs none =
      (match cur with
      | none => detectDataTypeGo rest (some (detectValueType (trimList v) bs).1)
          (detectValueType (trimList v) bs).2 none
      | some ct =>
          if ct = (detectValueType (trimList v) bs).1 then
            detectDataTypeGo rest cur (detectValueType (trimList v) bs).2 none
          else if downgradeTypes ct (detectValueType (trimList v) bs).1
              (detectValueType (trimList v) bs).2 = DataType.string then
            (DataType.string, none)
          else detectDataTypeGo rest
            (some (downgradeTypes ct (detectValueType (trimList v) bs).1
              (detectValueType (trimList v) bs).2))
            (detectValueType (trimList v) bs).2 none) := by
  have hcond : ¬ (couldBeDatetime (trimList v) = true ∧ cur = some DataType.dateTime) :=
    fun hh => hcur hh.2
  conv_lhs => unfold detectDataTypeGo
  rw [if_neg hne]
  simp only
  rw [if_neg hcond]
  unfold detectStep3
  rw [if_neg hvt]
  cases cur with
  | none => rfl
  | some ct => rfl

theorem numBool_not_int (v : List Char) (h : isNumBoolV v) : ¬ isIntNonBoolV v := by
  intro hi
  obtain ⟨_, hb⟩ := hi
  rcases h with h | h <;> (rw [h] at hb; exact absurd hb (by decide))

theorem strBool_not_int (v : List Char) (h : isStrBoolV v) : ¬ isIntNonBoolV v := by
  intro hi
  obtain ⟨_, hb⟩ := hi
  rcases h with h | h <;> (rw [h] at hb; exact absurd hb (by decide))

theorem numBool_not_strBool (v : List Char) (h : isNumBoolV v) : ¬ isStrBoolV v := by
  intro hs
  rcases h with h | h <;> rcases hs with hs | hs <;> (rw [h] at hs; exact absurd hs (by decide))

/-- Columns of numeric booleans and plain integers settle on Integer
once an integer has been seen (or is guaranteed to come). -/
theorem goA_integer (values : List (List Char)) :
    ∀ (b : Bool) (cur : Option DataType),
      b = false →
      (cur = none ∨ cur = some DataType.boolean ∨ cur = some DataType.integer) →
      (∀ v ∈ values, isNumBoolV v ∨ isIntNonBoolV v) →
      ((∃ v ∈ values, isIntNonBoolV v) ∨ cur = some DataType.integer) →
      detectDataTypeGo values cur ⟨b⟩ none = (DataType.integer, none) := by
  induction values with
  | nil =>
      intro b cur hb hcur hall hex
      rcases hex with ⟨v, hv, _⟩ | rfl
      · simp at hv
      · rfl
  | cons v rest ih =>
      intro b cur hb hcur hall hex
      subst hb
      have hclass := hall v (List.mem_cons_self ..)
      have hcurne : cur ≠ some DataType.dateTime := by
        rcases hcur with rfl | rfl | rfl <;> simp
      have hne := class_trim_ne_nil v
        (hclass.elim (fun h => Or.inl h) (fun h => Or.inr (Or.inr h)))
      have hallrest : ∀ x ∈ rest, isNumBoolV x ∨ isIntNonBoolV x :=
        fun x hx => hall x (List.mem_cons_of_mem _ hx)
      rcases hclass with hnb | hib
      · have hdv := detectValueType_numBool v hnb ⟨false⟩
        have hexrest : (∃ w ∈ rest, isIntNonBoolV w) ∨ cur = some DataType.integer := by
          rcases hex with ⟨w, hw, hwint⟩ | hc
          · rcases List.mem_cons.mp hw with rfl | hwrest
            · exact absurd hwint (numBool_not_int w hnb)
            · exact Or.inl ⟨w, hwrest, hwint⟩
          · exact Or.inr hc
        rw [go_cons_step v rest cur ⟨false⟩ hne hcurne (by rw [hdv]; simp)]
        rw [hdv]
        rcases hcur with rfl | rfl | rfl
        · dsimp only
          apply ih false (some DataType.boolean) rfl (Or.inr (Or.inl rfl)) hallrest
          rcases hexrest with hl | hc
          · exact Or.inl hl
          · exact absurd hc (by simp)
        · dsimp only
          rw [if_pos rfl]
          apply ih false (some DataType.boolean) rfl (Or.inr (Or.inl rfl)) hallrest
          rcases hexrest with hl | hc
          · exact Or.inl hl
          · exact absurd hc (by simp)
        · dsimp only
          rw [if_neg (by decide)]
          have hdown : downgradeTypes DataType.integer DataType.boolean ⟨false⟩ =
              DataType.integer := by decide
          rw [hdown, if_neg (by decide)]
          exact ih false (some DataType.integer) rfl (Or.inr (Or.inr rfl)) hallrest
            (Or.inr rfl)
      · have hdv := detectValueType_int v hib ⟨false⟩
        rw [go_cons_step v rest cur ⟨false⟩ hne hcurne (by rw [hdv]; simp)]
        rw [hdv]
        rcases hcur with rfl | rfl | rfl
        · dsimp only
          exact ih false (some DataType.integer) rfl (Or.inr (Or.inr rfl)) hallrest
            (Or.inr rfl)
        · dsimp only
          rw [if_neg (by decide)]
          have hdown : downgradeTypes DataType.boolean DataType.integer ⟨false⟩ =
              DataType.integer := by decide
          rw [hdown, if_neg (by decide)]
          exact ih false (some DataType.integer) rfl (Or.inr (Or.inr rfl)) hallrest
            (Or.inr rfl)
        · dsimp only
          rw [if_pos rfl]
          exact ih false (some DataType.integer) rfl (Or.inr (Or.inr rfl)) hallrest
            (Or.inr rfl)

/-- Columns mixing a string-form boolean with a plain integer settle on
String the moment the two meet. -/
theorem goB_string (values : List (List Char)) :
    ∀ (b : Bool) (cur : Option DataType),
      ((cur = none ∧ b = false) ∨ cur = some DataType.boolean ∨
        (cur = some DataType.integer ∧ b = false)) →
      (∀ v ∈ values, isNumBoolV v ∨ isStrBoolV v ∨ isIntNonBoolV v) →
      ((b = true ∧ (∃ v ∈ values, isIntNonBoolV v)) ∨
        (cur = some DataType.integer ∧ (∃ v ∈ values, isStrBoolV v)) ∨
        ((∃ v ∈ values, isStrBoolV v) ∧ (∃ v ∈ values, isIntNonBoolV v))) →
      detectDataTypeGo values cur ⟨b⟩ none = (DataType.string, none) := by
  induction values with
  | nil =>
      intro b cur _ _ hP
      rcases hP with ⟨_, _, h, _⟩ | ⟨_, _, h, _⟩ | ⟨⟨_, h, _⟩, _⟩ <;> simp at h
  | cons v rest ih =>
      intro b cur hinv hall hP
      have hclass := hall v (List.mem_cons_self ..)
      have hcurne : cur ≠ some DataType.dateTime := by
        rcases hinv with ⟨rfl, _⟩ | rfl | ⟨rfl, _⟩ <;> simp
      have hne := class_trim_ne_nil v hclass
      have hallrest : ∀ x ∈ rest, isNumBoolV x ∨ isStrBoolV x ∨ isIntNonBoolV x :=
        fun x hx => hall x (List.mem_cons_of_mem _ hx)
      rcases hclass with hnb | hsb | hib
      · -- numeric boolean: type Boolean, state unchanged
        have hdv := detectValueType_numBool v hnb ⟨b⟩
        rw [go_cons_step v rest cur ⟨b⟩ hne hcurne (by rw [hdv]; simp)]
        rw [hdv]
        have hPrest : (b = true ∧ (∃ w ∈ rest, isIntNonBoolV w)) ∨
            (cur = some DataType.integer ∧ (∃ w ∈ rest, isStrBoolV w)) ∨
            ((∃ w ∈ rest, isStrBoolV w) ∧ (∃ w ∈ rest, isIntNonBoolV w)) := by
          rcases hP with ⟨hbt, w, hw, hwc⟩ | ⟨hc, w, hw, hwc⟩ | ⟨⟨w, hw, hwc⟩, ⟨u, hu, huc⟩⟩
          · rcases List.mem_cons.mp hw with rfl | hwr
            · exact absurd hwc (numBool_not_int w hnb)
            · exact Or.inl ⟨hbt, w, hwr, hwc⟩
          · rcases List.mem_cons.mp hw with rfl | hwr
            · exact absurd hwc (numBool_not_strBool w hnb)
            · exact Or.inr (Or.inl ⟨hc, w, hwr, hwc⟩)
          · rcases List.mem_cons.mp hw with rfl | hwr
            · exact absurd hwc (numBool_not_strBool w hnb)
            · rcases List.mem_cons.mp hu with rfl | hur
              · exact absurd huc (numBool_not_int u hnb)
              · exact Or.inr (Or.inr ⟨⟨w, hwr, hwc⟩, ⟨u, hur, huc⟩⟩)
        rcases hinv with ⟨rfl, rfl⟩ | rfl | ⟨rfl, rfl⟩
        · dsimp only
          apply ih false (some DataType.boolean) (Or.inr (Or.inl rfl)) hallrest
          rcases hPrest with ⟨hbt, _⟩ | ⟨hc, _⟩ | hboth
          · exact absurd hbt (by simp)
          · exact absurd hc (by simp)
          · exact Or.inr (Or.inr hboth)
        · dsimp only
          rw [if_pos rfl]
          apply ih b (some DataType.boolean) (Or.inr (Or.inl rfl)) hallrest
          rcases hPrest with hbt | ⟨hc, _⟩ | hboth
          · exact Or.inl hbt
          · exact absurd hc (by simp)
          · exact Or.inr (Or.inr hboth)
        · dsimp only
          rw [if_neg (by decide)]
          have hdown : downgradeTypes DataType.integer DataType.boolean ⟨false⟩ =
              DataType.integer := by decide
          rw [hdown, if_neg (by decide)]
          apply ih false (some DataType.integer) (Or.inr (Or.inr ⟨rfl, rfl⟩)) hallrest
          rcases hPrest with ⟨hbt, _⟩ | hc | hboth
          · exact absurd hbt (by simp)
          · exact Or.inr (Or.inl hc)
          · exact Or.inr (Or.inr hboth)
      · -- string-form boolean: type Boolean, flag set
        have hdv := detectValueType_strBool v hsb ⟨b⟩
        rw [go_cons_step v rest cur ⟨b⟩ hne hcurne (by rw [hdv]; simp)]
        rw [hdv]
        rcases hinv with ⟨rfl, rfl⟩ | rfl | ⟨rfl, rfl⟩
        · dsimp only
          apply ih true (some DataType.boolean) (Or.inr (Or.inl rfl)) hallrest
          rcases hP with ⟨hbt, _⟩ | ⟨hc, _⟩ | ⟨_, ⟨u, hu, huc⟩⟩
          · exact absurd hbt (by simp)
          · exact absurd hc (by simp)
          · rcases List.mem_cons.mp hu with rfl | hur
            · exact absurd huc (strBool_not_int u hsb)
            · exact Or.inl ⟨rfl, u, hur, huc⟩
        · dsimp only
          rw [if_pos rfl]
          apply ih true (some DataType.boolean) (Or.inr (Or.inl rfl)) hallrest
          rcases hP with ⟨_, u, hu, huc⟩ | ⟨hc, _⟩ | ⟨_, ⟨u, hu, huc⟩⟩
          · rcases List.mem_cons.mp hu with rfl | hur
            · exact absurd huc (strBool_not_int u hsb)
            · exact Or.inl ⟨rfl, u, hur, huc⟩
          · exact absurd hc (by simp)
          · rcases List.mem_cons.mp hu with rfl | hur
            · exact absurd huc (strBool_not_int u hsb)
            · exact Or.inl ⟨rfl, u, hur, huc⟩
        · dsimp only
          rw [if_neg (by decide)]
          have hdown : downgradeTypes DataType.integer DataType.boolean ⟨true⟩ =
              DataType.string := by decide
          rw [hdown, if_pos rfl]
      · -- plain integer
        have hdv := detectValueType_int v hib ⟨b⟩
        rw [go_cons_step v rest cur ⟨b⟩ hne hcurne (by rw [hdv]; simp)]
        rw [hdv]
        rcases hinv with ⟨rfl, rfl⟩ | rfl | ⟨rfl, rfl⟩
        · dsimp only
          apply ih false (some DataType.integer) (Or.inr (Or.inr ⟨rfl, rfl⟩)) hallrest
          rcases hP with ⟨hbt, _⟩ | ⟨hc, _⟩ | ⟨⟨u, hu, huc⟩, _⟩
          · exact absurd hbt (by simp)
          · exact absurd hc (by simp)
          · rcases List.mem_cons.mp hu with rfl | hur
            · exact absurd huc (fun hh => strBool_not_int u hh hib)
            · exact Or.inr (Or.inl ⟨rfl, u, hur, huc⟩)
        · dsimp only
          rw [if_neg (by decide)]
          cases b with
          | true =>
              have hdown : downgradeTypes DataType.boolean DataType.integer ⟨true⟩ =
                  DataType.string := by decide
              rw [hdown, if_pos rfl]
          | false =>
              have hdown : downgradeTypes DataType.boolean DataType.integer ⟨false⟩ =
                  DataType.integer := by decide
              rw [hdown, if_neg (by decide)]
              apply ih false (some DataType.integer) (Or.inr (Or.inr ⟨rfl, rfl⟩)) hallrest
              rcases hP with ⟨hbt, _⟩ | ⟨hc, _⟩ | ⟨⟨u, hu, huc⟩, _⟩
              · exact absurd hbt (by simp)
              · exact absurd hc (by simp)
              · rcases List.mem_cons.mp hu with rfl | hur
                · exact absurd huc (fun hh => strBool_not_int u hh hib)
                · exact Or.inr (Or.inl ⟨rfl, u, hur, huc⟩)
        · dsimp only
          rw [if_pos rfl]
          apply ih false (some DataType.integer) (Or.inr (Or.inr ⟨rfl, rfl⟩)) hallrest
          rcases hP with ⟨hbt, _⟩ | ⟨_, u, hu, huc⟩ | ⟨⟨u, hu, huc⟩, _⟩
          · exact absurd hbt (by simp)
          · rcases List.mem_cons.mp hu with rfl | hur
            · exact absurd huc (fun hh => strBool_not_int u hh hib)
            · exact Or.inr (Or.inl ⟨rfl, u, hur, huc⟩)
          · rcases List.mem_cons.mp hu with rfl | hur
            · exact absurd huc (fun hh => strBool_not_int u hh hib)
            · exact Or.inr (Or.inl ⟨rfl, u, hur, huc⟩)

/-- Pure ASCII bytes decode strictly as themselves. -/
theorem ascii_utf8Decode (data : List Nat) (h : isAscii data = true) :
    utf8Decode data = some (data.map Char.ofNat) := by
  induction data with
  | nil => rfl
  | cons b rest ih =>
      unfold isAscii at h
      rw [List.all_cons, Bool.and_eq_true] at h
      have hb : b < 128 := of_decide_eq_true h.1
      conv_lhs => unfold utf8Decode
      rw [if_pos hb, ih h.2]
      rfl

/-- No Encoding Standard name normalizes to the reserved ansi label. -/
theorem normalizeEncoding_ne_ansi :
    ∀ name ∈ encodingNames, normalizeEncoding name ≠ "ansi".toList := by decide

/-- C10: whenever detect_charset returns the reserved label ansi (for
any statistical detector drawn from the Encoding Standard names), the
input bytes are pure 7-bit ASCII; and on ASCII bytes the strict ansi
decoding path of convert_to_utf8 always succeeds — its Encoding-error
branch is unreachable for labels produced by detection. -/
theorem C10_ansi_label_sound (stat : List Nat → List Char)
    (hstat : ∀ d, stat d ∈ encodingNames) :
    (∀ data, detectCharset stat data = "ansi".toList → isAscii data = true) ∧
    (∀ (lossy : List Nat → List Char → List Char) (data : List Nat),
      isAscii data = true →
      convertToUtf8 lossy data "ansi".toList = Except.ok (data.map Char.ofNat)) := by
  constructor
  · intro data h
    unfold detectCharset at h
    by_cases h1 : data.take 3 = [0xEF, 0xBB, 0xBF]
    · rw [if_pos h1] at h; exact absurd h (by decide)
    · rw [if_neg h1] at h
      by_cases h2 : data.take 2 = [0xFF, 0xFE]
      · rw [if_pos h2] at h; exact absurd h (by decide)
      · rw [if_neg h2] at h
        by_cases h3 : data.take 2 = [0xFE, 0xFF]
        · rw [if_pos h3] at h; exact absurd h (by decide)
        · rw [if_neg h3] at h
          by_cases h4 : data.length ≤ CSVA_GUESS_SIZE
          · rw [if_pos h4] at h
            unfold guessEncodingQuick at h
            by_cases h5 : isAscii data = true
            · exact h5
            · rw [if_neg h5] at h
              by_cases h6 : (utf8Decode data).isSome = true
              · rw [if_pos h6] at h; exact absurd h (by decide)
              · rw [if_neg h6] at h
                exact absurd h (normalizeEncoding_ne_ansi _ (hstat data))
          · rw [if_neg h4] at h
            by_cases h5 : isAscii data = true
            · exact h5
            · rw [if_neg h5] at h
              exact absurd h (normalizeEncoding_ne_ansi _ (hstat data))
  · intro lossy data hasc
    have hred : convertToUtf8 lossy data "ansi".toList =
        match utf8Decode data with
        | some cs => Except.ok cs
        | none => Except.error "Invalid UTF-8".toList := rfl
    rw [hred, ascii_utf8Decode data hasc]

/-- Witness instantiating C10 with the constant windows-1252 guesser
and the ASCII bytes 48 69. -/
theorem C10_ansi_label_sound_witness :
    convertToUtf8 (fun _ _ => []) [72, 105] "ansi".toList =
      Except.ok (([72, 105] : List Nat).map Char.ofNat) := by
  have hmem : ("windows-1252".toList) ∈ encodingNames := by decide
  exact (C10_ansi_label_sound (fun _ => "windows-1252".toList) (fun _ => hmem)).2
    (fun _ _ => []) [72, 105] (by decide)

theorem utf8Len_replicate (n : Nat) (c : Char) :
    utf8Len (List.replicate n c) = n * charUtf8Size c := by
  induction n with
  | zero => simp [utf8Len]
  | succ m ih =>
      simp only [List.replicate_succ, utf8Len, List.map_cons, List.sum_cons]
      simp only [utf8Len] at ih
      rw [ih]
      ring

theorem validateHeadersAux_ok (hs : List (List Char)) :
    ∀ i, (∀ h ∈ hs, isValidStringSize h = true) → validateHeadersAux hs i = Except.ok () := by
  induction hs with
  | nil => intro i _; rfl
  | cons h rest ih =>
      intro i hall
      simp only [validateHeadersAux]
      rw [if_pos (hall h (List.mem_cons_self ..))]
      exact ih _ (fun x hx => hall x (List.mem_cons_of_mem _ hx))

theorem validateHeadersAux_err (hpre : List (List Char)) :
    ∀ (i : Nat) (h : List Char) (hrest : List (List Char)),
      (∀ x ∈ hpre, isValidStringSize x = true) → isValidStringSize h = false →
      validateHeadersAux (hpre ++ h :: hrest) i =
        Except.error ⟨CsvErrorType.columnLong, 0, i + hpre.length + 1, h⟩ := by
  induction hpre with
  | nil =>
      intro i h hrest _ hbad
      simp only [List.nil_append, validateHeadersAux]
      rw [if_neg (by simp [hbad])]
      rfl
  | cons x rest ih =>
      intro i h hrest hall hbad
      simp only [List.cons_append, validateHeadersAux]
      rw [if_pos (hall x (List.mem_cons_self ..))]
      simp only [List.append_eq]
      rw [ih (i + 1) h hrest (fun z hz => hall z (List.mem_cons_of_mem _ hz)) hbad]
      congr 2
      simp
      omega

theorem validateRowAux_ok (vs : List (List Char)) :
    ∀ (rownum col : Nat), (∀ v ∈ vs, isValidStringSize v = true) →
      validateRowAux rownum vs col = Except.ok () := by
  induction vs with
  | nil => intro rownum col _; rfl
  | cons v rest ih =>
      intro rownum col hall
      simp only [validateRowAux]
      rw [if_pos (hall v (List.mem_cons_self ..))]
      exact ih _ _ (fun x hx => hall x (List.mem_cons_of_mem _ hx))

theorem validateRowAux_err (vpre : List (List Char)) :
    ∀ (rownum col : Nat) (v : List Char) (vrest : List (List Char)),
      (∀ x ∈ vpre, isValidStringSize x = true) → isValidStringSize v = false →
      validateRowAux rownum (vpre ++ v :: vrest) col =
        Except.error ⟨CsvErrorType.valueLong, rownum, col + vpre.length + 1, v⟩ := by
  induction vpre with
  | nil =>
      intro rownum col v vrest _ hbad
      simp only [List.nil_append, validateRowAux]
      rw [if_neg (by simp [hbad])]
      rfl
  | cons x rest ih =>
      intro rownum col v vrest hall hbad
      simp only [List.cons_append, validateRowAux]
      rw [if_pos (hall x (List.mem_cons_self ..))]
      simp only [List.append_eq]
      rw [ih (rownum) (col + 1) v vrest (fun z hz => hall z (List.mem_cons_of_mem _ hz)) hbad]
      congr 2
      simp
      omega

theorem validateValuesAux_ok (rows : List (List (List Char))) :
    ∀ (skip : Bool) (i n : Nat),
      (∀ r ∈ rows, ∀ v ∈ r, isValidStringSize v = true) →
      validateValuesAux skip rows i n = Except.ok (rows.take (MAX_RETURN_LINES - n)) := by
  induction rows with
  | nil => intro skip i n _; simp [validateValuesAux]
  | cons row rest ih =>
      intro skip i n hall
      simp only [validateValuesAux]
      by_cases hcap : n ≥ MAX_RETURN_LINES
      · rw [if_pos hcap]
        have : MAX_RETURN_LINES - n = 0 := by omega
        rw [this, List.take_zero]
      · rw [if_neg hcap]
        rw [validateRowAux_ok row _ 0 (hall row (List.mem_cons_self ..))]
        rw [ih skip (i + 1) (n + 1) (fun r hr => hall r (List.mem_cons_of_mem _ hr))]
        simp only
        have : MAX_RETURN_LINES - n = (MAX_RETURN_LINES - (n + 1)) + 1 := by
          simp only [MAX_RETURN_LINES] at hcap ⊢
          omega
        rw [this, List.take_succ_cons]

theorem validateValuesAux_err (rpre : List (List (List Char))) :
    ∀ (skip : Bool) (i n : Nat) (bad : List (List Char)) (rrest : List (List (List Char)))
      (e : ErrorCtx),
      (∀ r ∈ rpre, ∀ v ∈ r, isValidStringSize v = true) →
      n + rpre.length < MAX_RETURN_LINES →
      validateRowAux (if skip then i + rpre.length + 2 else i + rpre.length + 1) bad 0 =
        Except.error e →
      validateValuesAux skip (rpre ++ bad :: rrest) i n = Except.error e := by
  induction rpre with
  | nil =>
      intro skip i n bad rrest e _ hcap hbad
      simp only [List.nil_append, validateValuesAux]
      rw [if_neg (by omega)]
      simp only [List.length_nil, Nat.add_zero] at hbad
      rw [hbad]
  | cons row rest ih =>
      intro skip i n bad rrest e hall hcap hbad
      simp only [List.cons_append, validateValuesAux]
      rw [if_neg (by simp only [List.length_cons] at hcap; omega)]
      rw [validateRowAux_ok row _ 0 (hall row (List.mem_cons_self ..))]
      simp only [List.append_eq]
      rw [ih skip (i + 1) (n + 1) bad rrest e
        (fun r hr => hall r (List.mem_cons_of_mem _ hr))
        (by simp only [List.length_cons] at hcap; omega)
        (by
          have harith1 : i + 1 + rest.length + 2 = i + (row :: rest).length + 2 := by
            simp; omega
          have harith2 : i + 1 + rest.length + 1 = i + (row :: rest).length + 1 := by
            simp; omega
          cases skip with
          | false => rw [if_neg (by simp), harith2]
                     rw [if_neg (by simp)] at hbad
                     exact hbad
          | true => rw [if_pos rfl, harith1]
                    rw [if_pos rfl] at hbad
                    exact hbad)]

/-- C8, counterexample: the length cap of is_valid_string_size counts
UTF-8 bytes, not characters.  A header name of exactly 1000 characters
each encoding to two bytes fails validation with ColumnNameTooLong
although its character length equals the cap. -/
theorem C8_counterexample :
    (List.replicate 1000 'é').length = 1000 ∧
      validateHeaders [List.replicate 1000 'é'] =
        Except.error ⟨CsvErrorType.columnLong, 0, 1, List.replicate 1000 'é'⟩ := by
  constructor
  · exact List.length_replicate ..
  · have hsize : isValidStringSize (List.replicate 1000 'é') = false := by
      simp only [isValidStringSize, utf8Len_replicate, MAX_STRING_SIZE]
      decide
    unfold validateHeaders validateHeadersAux
    rw [if_neg (by rw [hsize]; exact Bool.false_ne_true)]

/-- C8, amended: the cap is 1000 UTF-8 bytes.  Header names and field
values at or below the cap pass; the first name over the cap fails
with ColumnNameTooLong carrying its 1-based column and the field text
(the row field of the payload is 0, its initial value, for header
errors); the first over-cap value among the rows subject to output
validation (only the first MAX_RETURN_LINES data rows are checked)
fails with ValueTooLong carrying the 1-based row (plus one when a
header was skipped), the 1-based column, and the field text. -/
theorem C8_amended :
    (∀ hs : List (List Char), (∀ h ∈ hs, utf8Len h ≤ MAX_STRING_SIZE) →
      validateHeaders hs = Except.ok ()) ∧
    (∀ (hpre : List (List Char)) (h : List Char) (hrest : List (List Char)),
      (∀ x ∈ hpre, utf8Len x ≤ MAX_STRING_SIZE) → utf8Len h > MAX_STRING_SIZE →
      validateHeaders (hpre ++ h :: hrest) =
        Except.error ⟨CsvErrorType.columnLong, 0, hpre.length + 1, h⟩) ∧
    (∀ (skip : Bool) (rows : List (List (List Char))),
      (∀ r ∈ rows, ∀ v ∈ r, utf8Len v ≤ MAX_STRING_SIZE) →
      validateValues skip rows = Except.ok (rows.take MAX_RETURN_LINES)) ∧
    (∀ (skip : Bool) (rpre : List (List (List Char))) (vpre : List (List Char))
        (v : List Char) (vrest : List (List Char)) (rrest : List (List (List Char))),
      (∀ r ∈ rpre, ∀ x ∈ r, utf8Len x ≤ MAX_STRING_SIZE) →
      (∀ x ∈ vpre, utf8Len x ≤ MAX_STRING_SIZE) →
      utf8Len v > MAX_STRING_SIZE →
      rpre.length < MAX_RETURN_LINES →
      validateValues skip (rpre ++ (vpre ++ v :: vrest) :: rrest) =
        Except.error ⟨CsvErrorType.valueLong,
          (if skip then rpre.length + 2 else rpre.length + 1), vpre.length + 1, v⟩) ∧
    (validateHeaders [List.replicate 1000 'a'] = Except.ok () ∧
      validateValues false [[List.replicate 1000 'a']] =
        Except.ok [[List.replicate 1000 'a']] ∧
      validateHeaders [List.replicate 1001 'a'] =
        Except.error ⟨CsvErrorType.columnLong, 0, 1, List.replicate 1001 'a'⟩) := by
  have hconv : ∀ s : List Char, utf8Len s ≤ MAX_STRING_SIZE ↔ isValidStringSize s = true := by
    intro s
    simp [isValidStringSize]
  have hconv' : ∀ s : List Char, utf8Len s > MAX_STRING_SIZE → isValidStringSize s = false := by
    intro s hgt
    simp only [isValidStringSize, decide_eq_false_iff_not]
    omega
  refine ⟨?_, ?_, ?_, ?_, ?_, ?_, ?_⟩
  · intro hs hall
    exact validateHeadersAux_ok hs 0 (fun h hh => (hconv h).mp (hall h hh))
  · intro hpre h hrest hall hbad
    unfold validateHeaders
    rw [validateHeadersAux_err hpre 0 h hrest
      (fun x hx => (hconv x).mp (hall x hx)) (hconv' h hbad)]
    congr 2
    omega
  · intro skip rows hall
    unfold validateValues
    rw [validateValuesAux_ok rows skip 0 0
      (fun r hr v hv => (hconv v).mp (hall r hr v hv))]
    rw [Nat.sub_zero]
  · intro skip rpre vpre v vrest rrest hall hvpre hbad hcap
    unfold validateValues
    exact validateValuesAux_err rpre skip 0 0 _ rrest _
      (fun r hr x hx => (hconv x).mp (hall r hr x hx))
      (by omega)
      (by
        rw [validateRowAux_err vpre _ 0 v vrest
          (fun x hx => (hconv x).mp (hvpre x hx)) (hconv' v hbad)]
        cases skip <;> simp)
  · apply validateHeadersAux_ok
    intro h hh
    rw [List.mem_singleton] at hh
    subst hh
    simp only [isValidStringSize, utf8Len_replicate, MAX_STRING_SIZE]
    decide
  · unfold validateValues
    rw [validateValuesAux_ok _ false 0 0 (by
      intro r hr x hx
      rw [List.mem_singleton] at hr
      subst hr
      rw [List.mem_singleton] at hx
      subst hx
      simp only [isValidStringSize, utf8Len_replicate, MAX_STRING_SIZE]
      decide)]
    rfl
  · unfold validateHeaders validateHeadersAux
    rw [if_neg (by
      simp only [isValidStringSize, utf8Len_replicate, MAX_STRING_SIZE]
      decide)]

/-- Witness instantiating the over-cap header conjunct of C8_amended
at a concrete three-byte-per-character name of 334 characters
(1002 bytes). -/
theorem C8_amended_witness :
    validateHeaders [List.replicate 334 'ࠀ'] =
      Except.error ⟨CsvErrorType.columnLong, 0, 1, List.replicate 334 'ࠀ'⟩ := by
  have h := C8_amended.2.1 [] (List.replicate 334 'ࠀ') []
    (fun x hx => absurd hx (List.not_mem_nil x))
    (by rw [utf8Len_replicate]; decide)
  exact h

/-- C9: the advisory metadata fetch is non-fatal.  get_contact_properties
always returns Ok, and on every failure outcome (global connection,
pool-info query, user-pool connection, or property query) it returns
the empty property list — no failure is propagated as an error. -/
theorem C9_advisory_fetch_nonfatal (db : DbConnection) :
    (∃ props, getContactProperties db = Except.ok props) ∧
    (∀ e, db.connectGlobal = Except.error e → getContactProperties db = Except.ok []) ∧
    (∀ e, db.getPoolInfo = Except.error e → getContactProperties db = Except.ok []) ∧
    (∀ pi e, db.getPoolInfo = Except.ok pi → db.connectUserPool pi = Except.error e →
      getContactProperties db = Except.ok []) ∧
    (∀ e, db.getContactProps = Except.error e → getContactProperties db = Except.ok []) := by
  rcases hg : db.connectGlobal with eg | u
  · have hval : getContactProperties db = Except.ok [] := by
      simp only [getContactProperties, hg]
    exact ⟨⟨[], hval⟩, fun _ _ => hval, fun _ _ => hval, fun _ _ _ _ => hval, fun _ _ => hval⟩
  · rcases hp : db.getPoolInfo with ep | pi
    · have hval : getContactProperties db = Except.ok [] := by
        simp only [getContactProperties, hg, hp]
      exact ⟨⟨[], hval⟩, fun _ _ => hval, fun _ _ => hval, fun _ _ _ _ => hval, fun _ _ => hval⟩
    · rcases hu : db.connectUserPool pi with eu | uu
      · have hval : getContactProperties db = Except.ok [] := by
          simp only [getContactProperties, hg, hp, hu]
        exact ⟨⟨[], hval⟩, fun _ _ => hval, fun _ _ => hval, fun _ _ _ _ => hval, fun _ _ => hval⟩
      · rcases hq : db.getContactProps with eqe | props
        · have hval : getContactProperties db = Except.ok [] := by
            simp only [getContactProperties, hg, hp, hu, hq]
          exact ⟨⟨[], hval⟩, fun _ _ => hval, fun _ _ => hval, fun _ _ _ _ => hval,
            fun _ _ => hval⟩
        · have hval : getContactProperties db = Except.ok props := by
            simp only [getContactProperties, hg, hp, hu, hq]
          refine ⟨⟨props, hval⟩, fun e hg' => ?_, fun e hp' => ?_, fun pi' e hpi hup => ?_,
            fun e hq' => ?_⟩
          · exact Except.noConfusion hg'
          · exact Except.noConfusion hp'
          · injection hpi with hpe
            subst hpe
            exact Except.noConfusion (hu.symm.trans hup)
          · exact Except.noConfusion hq'

/-- Witness instantiating C9 at a collaborator whose global connection
fails: the fetch degrades to the empty list. -/
theorem C9_advisory_fetch_nonfatal_witness :
    getContactProperties
      ⟨Except.error "no database".toList, Except.error "no database".toList,
        fun _ => Except.error "no database".toList, Except.error "no database".toList⟩ =
      Except.ok [] :=
  (C9_advisory_fetch_nonfatal
    ⟨Except.error "no database".toList, Except.error "no database".toList,
      fun _ => Except.error "no database".toList, Except.error "no database".toList⟩).2.1
    "no database".toList rfl

/-- Witness instantiating C3: the 90 percent consensus conjunct at a
concrete two-line sample with two columns each. -/
theorem C3_column_count_consensus_witness :
    validateColumnsCount ["a,b".toList, "1,2".toList] ',' '"' = Except.ok ⟨2, 0⟩ :=
  (C3_column_count_consensus.2.2 ["a,b".toList, "1,2".toList] ',' '"'
    (by decide) (by decide)).2.1 2 (by decide) (by decide) (by decide)

/-- Witness instantiating C2_amended: one data row whose second field
is the only valid email; the detection agrees with the tally spec. -/
theorem C2_amended_witness :
    detectEmailColumn [["x".toList, "j@x.co".toList]] none false =
      emailColumnSpec (emailCounts [["x".toList, "j@x.co".toList]]
        (["x".toList, "j@x.co".toList] : List (List Char)).length) :=
  (C2_amended [["x".toList, "j@x.co".toList]] ["x".toList, "j@x.co".toList] [] none false
    rfl (by decide) (fun h => Bool.noConfusion h)).1

/-- C1, counterexample: detect_quote_char does return a candidate that
showed an odd occurrence count on a line of the sample.  On the sample
with first line consisting of a single double quote (odd count 1) and
second line of two double quotes, the double quote is selected anyway,
because the odd line merely reset the accumulated tallies. -/
theorem C1_counterexample :
    detectQuoteChar [['"'], ['"', '"']] = some '"' ∧
      countChar '"' ['"'] % 2 = 1 := by
  constructor
  · rfl
  · rfl

/-- C1, amended: an odd per-line count does not disqualify a quote
candidate for the whole sample; it only resets that candidate's
accumulated tallies (and skips the candidates after it for that line).
Consequently a candidate is guaranteed not to be selected only when its
count is odd on the LAST line of the sample and it is actually
processed there, i.e. no earlier candidate in TEXT_SEPS order shows an
odd count on that line. -/
theorem C1_amended (lines : List (List Char)) (c : Char) (lst : List Char)
    (hlast : lines.getLast? = some lst)
    (hodd : countChar c lst % 2 = 1)
    (hskip : ∀ d ∈ TEXT_SEPS.takeWhile (fun d => d != c),
      countChar d lst % 2 = 0) :
    detectQuoteChar lines ≠ some c := by
  intro hdet
  have hne : lines ≠ [] := by
    intro h; rw [h] at hlast; simp at hlast
  have hlast' : lines.getLast hne = lst := by
    rw [List.getLast?_eq_getLast _ hne] at hlast
    exact Option.some_inj.mp hlast
  obtain ⟨front, rfl⟩ : ∃ front, front ++ [lst] = lines :=
    ⟨lines.dropLast, by rw [← hlast']; exact List.dropLast_append_getLast hne⟩
  simp only [detectQuoteChar, if_neg hne, List.foldl_append, List.foldl_cons,
    List.foldl_nil] at hdet
  set s := front.foldl quoteLineStep (TEXT_SEPS.map (fun c => (c, 0, 0))) with hs
  have hspine : s.map Prod.fst = TEXT_SEPS := by
    rw [hs, quoteFold_spine]; rfl
  have hzero : ∀ st ∈ quoteLineStep s lst, st.1 = c → st.2.1 = 0 :=
    quoteLineStep_reset s lst c (by rw [hspine]; decide) hodd
      (by rw [hspine]; exact hskip)
  rcases hbest : quoteBest (quoteLineStep s lst) none with _ | st
  · rw [hbest] at hdet; simp at hdet
  · rw [hbest] at hdet
    rcases quoteBest_mem _ none (some st) rfl hbest with ⟨x, hx, hxeq, hxpos⟩ | habs
    · obtain rfl : st = x := Option.some_inj.mp hxeq
      have hc : st.1 = c := by
        split at hdet
        · exact absurd hdet (by simp)
        · rename_i b heq
          cases Option.some_inj.mp heq
          split at hdet
          · exact Option.some_inj.mp hdet
          · exact absurd hdet (by simp)
      have := hzero st hx hc
      omega
    · simp at habs

/-- Witness instantiating C1_amended: on the one-line sample whose
line is a single double quote (odd count), the double quote is not
selected. -/
theorem C1_amended_witness :
    detectQuoteChar [['"']] ≠ some '"' :=
  C1_amended [['"']] '"' ['"'] (by decide) (by decide) (by decide)

/-- C6: one call to guess_datetime_format never adds candidates: both
the date-pattern list and the time-pattern list of the returned state
are sublists (hence subsets) of the lists passed in, for every value
and every starting state. -/
theorem C6_pattern_sets_shrink (value : List Char) (pats : DateTimePatterns) :
    List.Sublist (guessDatetimeFormat value pats).2.datePatterns pats.datePatterns ∧
    List.Sublist (guessDatetimeFormat value pats).2.timePatterns pats.timePatterns := by
  unfold guessDatetimeFormat
  dsimp only
  split
  · exact ⟨List.Sublist.refl _, List.Sublist.refl _⟩
  · split
    · exact ⟨List.nil_sublist _, List.nil_sublist _⟩
    · split
      · exact ⟨(List.filter_sublist _).trans (List.filter_sublist _), List.nil_sublist _⟩
      · constructor
        · dsimp only
          split
          · exact ((List.filter_sublist _).trans (List.filter_sublist _)).trans
              (List.filter_sublist _)
          · exact (List.filter_sublist _).trans (List.filter_sublist _)
        · dsimp only
          split
          · split
            · exact List.filter_sublist _
            · exact (List.filter_sublist _).trans (List.filter_sublist _)
          · exact List.nil_sublist _

/-- C4: detect_data_type aggregation: the four concrete columns giving
Integer, String, Float, and DateTime with format yyyy-mm-dd; and in
general a column of numeric-form booleans and plain integers with at
least one integer yields Integer, while a column of booleans and
integers containing a string-form boolean and a plain integer yields
String. -/
theorem C4_type_aggregation :
    detectDataType ["0".toList, "1".toList, "5".toList] none =
      (DataType.integer, none) ∧
    detectDataType ["true".toList, "false".toList, "5".toList] none =
      (DataType.string, none) ∧
    detectDataType ["1".toList, "2".toList, "3.5".toList] none =
      (DataType.float, none) ∧
    ((detectDataType ["2020-01-15".toList, "2020-02-20".toList] none).1 =
        DataType.dateTime ∧
      (detectDataType ["2020-01-15".toList, "2020-02-20".toList] none).2.bind
        DateTimePatterns.formatString = some "yyyy-mm-dd".toList) ∧
    (∀ values : List (List Char),
      (∀ v ∈ values, isNumBoolV v ∨ isIntNonBoolV v) →
      (∃ v ∈ values, isIntNonBoolV v) →
      detectDataType values none = (DataType.integer, none)) ∧
    (∀ values : List (List Char),
      (∀ v ∈ values, isNumBoolV v ∨ isStrBoolV v ∨ isIntNonBoolV v) →
      (∃ v ∈ values, isStrBoolV v) →
      (∃ v ∈ values, isIntNonBoolV v) →
      detectDataType values none = (DataType.string, none)) := by
  refine ⟨rfl, rfl, rfl, ⟨by decide, by decide⟩, ?_, ?_⟩
  · intro values hall hex
    have hne : values ≠ [] := by
      rcases hex with ⟨v, hv, _⟩
      intro h
      rw [h] at hv
      simp at hv
    unfold detectDataType
    rw [if_neg hne]
    exact goA_integer values false none rfl (Or.inl rfl) hall (Or.inl hex)
  · intro values hall hsb hib
    have hne : values ≠ [] := by
      rcases hib with ⟨v, hv, _⟩
      intro h
      rw [h] at hv
      simp at hv
    unfold detectDataType
    rw [if_neg hne]
    exact goB_string values false none (Or.inl ⟨rfl, rfl⟩) hall
      (Or.inr (Or.inr ⟨hsb, hib⟩))

/-- Witness instantiating the general conjuncts of C4_type_aggregation:
the column 0, 7 is numeric-boolean plus integer and infers Integer; the
column true, 7 mixes a string-form boolean with an integer and infers
String. -/
theorem C4_type_aggregation_witness :
    detectDataType ["0".toList, "7".toList] none = (DataType.integer, none) ∧
    detectDataType ["true".toList, "7".toList] none = (DataType.string, none) :=
  ⟨C4_type_aggregation.2.2.2.2.1 ["0".toList, "7".toList]
      (by unfold isNumBoolV isIntNonBoolV; decide)
      ⟨"7".toList, by decide, ⟨rfl, rfl⟩⟩,
    C4_type_aggregation.2.2.2.2.2 ["true".toList, "7".toList]
      (by unfold isNumBoolV isStrBoolV isIntNonBoolV; decide)
      ⟨"true".toList, by decide, Or.inl rfl⟩
      ⟨"7".toList, by decide, ⟨rfl, rfl⟩⟩⟩

end CsvAnalyzer
